import Mathlib

/-!
Verification of the `ar` archive codec (package `ar`): a shallow embedding of
the Reader (second implementation in `reader.go`, lines 227-509), the Writer
(`part_001`), and the shared header codec, together with theorems settling the
frozen claims about the specification.

Bytes are modelled as `Nat` (values 0..255 in practice), byte strings as
`List Nat`.  Go's `int`/`int64` are modelled as unbounded `Int`; this is exact
for every value that fits in a fixed-width header field (at most 16 decimal
digits, far below 2^63), so no overflow behaviour is lost on the paths the
claims exercise.  `time.Time` is modelled by its normalized (seconds,
nanoseconds) pair; `Unix()` returns the seconds.  Go runtime panics (negative
slice index, negative `make` length) are modelled by the distinguished
outcome `ArErr.goPanic`.
-/

namespace Ar

/-- The 8-byte global archive magic, the ASCII bytes of `!<arch>\n`. -/
def GLOBAL_HEADER : List Nat := [33, 60, 97, 114, 99, 104, 62, 10]

/-- Size in bytes of a member header block. -/
def HEADER_BYTE_SIZE : Nat := 60

/-- The two dialects of the ar format, as in `common.go`. -/
inductive Variant where
  | BSD
  | GNU
deriving DecidableEq, Repr

/-- Error / abnormal outcomes of the codec.  Each constructor corresponds to one
error value produced by the Go code (in `error.go` and inline `errors.New`
calls); `goPanic` stands for a Go runtime panic, which is not an error value in
Go but aborts execution. -/
inductive ArErr where
  | eof
  | unexpectedEOF
  | missingGlobalHeader
  | invalidGlobalHeader
  | stringTableMultiple
  | stringTableMissingNewline
  | stringTableReadEOF
  | fileNameZeroLength (name : List Nat)
  | fileNameMissingTable (name : List Nat)
  | fileNameInvalidOffset (name : List Nat)
  | fileNameMissingTrailingSlash (name : List Nat)
  | fileNameIllegalSlash (name : List Nat)
  | fileNameBadLength (name : List Nat)
  | fileNameReadEOF (name : List Nat)
  | closedWriter
  | closedTwice
  | writeTooLong
  | emptyFileName
  | missingStringTable
  | missingStringTableEntry (name : List Nat)
  | unsupportedVariant
  | goPanic
  | outOfFuel
deriving DecidableEq, Repr

/-- One archive member's metadata, mirroring `Header` in `common.go`.
`ModTimeSec`/`ModTimeNsec` model the normalized `time.Time` value (`Unix()`
returns `ModTimeSec`; `time.Unix(sec, 0)` has `ModTimeNsec = 0`). -/
structure Header where
  Name : List Nat
  ModTimeSec : Int
  ModTimeNsec : Nat
  Uid : Int
  Gid : Int
  Mode : Int
  Size : Int
deriving DecidableEq, Repr

/-- Little-endian digit values of `n` in the given base, computed with an
explicit fuel bound (`n` itself suffices, since the argument shrinks by at
least a factor of the base each step); equal to `Nat.digits` for bases of at
least 2, but reducible by the kernel. -/
def natDigitsAux (base : Nat) : Nat → Nat → List Nat
  | 0, _ => []
  | fuel + 1, n => if n = 0 then [] else n % base :: natDigitsAux base fuel (n / base)

/-- Big-endian ASCII decimal/octal digits of a natural number, as produced by
Go's `strconv.FormatInt` for nonnegative values (bases 8 and 10 use only the
digit characters, ASCII 48..57). -/
def natRepr (base n : Nat) : List Nat :=
  if n = 0 then [48] else ((natDigitsAux base n n).map (fun d => d + 48)).reverse

/-- ASCII rendering of an integer, as by `strconv.FormatInt`: a leading 45
(ASCII minus) for negative values, then the digits. -/
def intRepr (base : Nat) (x : Int) : List Nat :=
  if x < 0 then 45 :: natRepr base x.natAbs else natRepr base x.toNat

/-- Left-justify `s` in a field of `w` bytes, padding with spaces (32); if `s`
is longer than `w` the copy silently truncates to the first `w` bytes.  This is
the common behaviour of the writer's `numeric`, `octal` and `string` helpers,
which pad the string with spaces until it is at least as long as the buffer and
then `copy` into the fixed-width buffer. -/
def spacePad (w : Nat) (s : List Nat) : List Nat :=
  (s ++ List.replicate (w - s.length) 32).take w

/-- The reader's `string` helper: trim trailing spaces, but never trim the byte
at index 0 (the loop stops at `i > 0`), so an all-space field trims to a single
space and only the empty field trims to empty. -/
def arTrim (b : List Nat) : List Nat :=
  if b = [] then []
  else
    let t := b.reverse.dropWhile (fun c => c = 32)
    if t = [] then b.take 1 else t.reverse

/-- Value of one ASCII digit character in the given base, if valid. -/
def digitVal (base c : Nat) : Option Nat :=
  if 48 ≤ c ∧ c < 48 + base then some (c - 48) else none

/-- Accumulating digit parser: consumes ASCII digits, folding them into `acc`;
fails on the first byte that is not a digit of the base. -/
def parseNatAux (base : Nat) : Nat → List Nat → Option Nat
  | acc, [] => some acc
  | acc, c :: cs =>
    match digitVal base c with
    | some d => parseNatAux base (acc * base + d) cs
    | none => none

/-- Parse a nonempty all-digit string; `none` on empty input or any non-digit,
matching `strconv.ParseInt`'s syntax-error behaviour. -/
def parseNatDigits (base : Nat) (s : List Nat) : Option Nat :=
  if s = [] then none else parseNatAux base 0 s

/-- Model of `strconv.ParseInt(s, base, 64)` restricted to field-sized inputs
(no 64-bit overflow is possible for at most 16 digits): an optional single
leading sign (43 or 45), then one or more digits. -/
def parseInt (base : Nat) (s : List Nat) : Option Int :=
  match s with
  | [] => none
  | c :: rest =>
    if c = 43 then (parseNatDigits base rest).map Int.ofNat
    else if c = 45 then (parseNatDigits base rest).map (fun n => -(Int.ofNat n))
    else (parseNatDigits base s).map Int.ofNat

/-- The reader's `numeric` field decoder: trim trailing spaces, parse as
decimal; a malformed field yields 0 (the parse error is discarded). -/
def readNumeric (b : List Nat) : Int :=
  (parseInt 10 (arTrim b)).getD 0

/-- The reader's `octal` field decoder: trim trailing spaces, parse as octal;
a malformed field yields 0. -/
def readOctal (b : List Nat) : Int :=
  (parseInt 8 (arTrim b)).getD 0

/-- Model of `strings.TrimRight(s, "/")`: remove every trailing 47. -/
def dropTrailingSlashes (s : List Nat) : List Nat :=
  (s.reverse.dropWhile (fun c => c = 47)).reverse

/-- Model of `strings.TrimRight(s, "\x00")` and `bytes.TrimRight(b, "\x00")`:
remove every trailing NUL byte. -/
def trimTrailingNuls (s : List Nat) : List Nat :=
  (s.reverse.dropWhile (fun c => c = 0)).reverse

/-- The BSD symbol-table member name `__.SYMDEF`. -/
def SYMDEF : List Nat := [95, 95, 46, 83, 89, 77, 68, 69, 70]

/-- Writer state, mirroring the `Writer` struct of the writer source: the bytes
written so far to the underlying `io.Writer` (`out`), the configured variant,
the `closed` / `wroteHeader` / `wroteStringTable` flags, the expected-payload
counter `nb`, and the name-to-offset string table map (an association list). -/
structure Writer where
  out : List Nat
  variant : Variant
  closed : Bool
  wroteHeader : Bool
  wroteStringTable : Bool
  nb : Int
  stringTable : List (List Nat × Nat)
deriving DecidableEq, Repr

/-- `NewWriter`: bind to an output stream (initially empty) and a variant. -/
def NewWriter (variant : Variant) : Writer :=
  { out := [], variant := variant, closed := false, wroteHeader := false,
    wroteStringTable := false, nb := 0, stringTable := [] }

/-- The lazy global-header emission of `Writer.writeHeader`: a no-op when the
magic has already been written, otherwise it marks it written and emits it. -/
def Writer.emitGlobal (aw : Writer) : Writer :=
  if aw.wroteHeader then aw
  else { aw with wroteHeader := true, out := aw.out ++ GLOBAL_HEADER }

/-- The private `Writer.write`: fail on a closed writer, otherwise make sure
the global header has been emitted and append `p` to the underlying stream
(our underlying stream is an in-memory buffer and never fails). -/
def Writer.write (aw : Writer) (p : List Nat) : Writer × Nat × Option ArErr :=
  if aw.closed then (aw, 0, some .closedWriter)
  else
    let aw1 := aw.emitGlobal
    ({ aw1 with out := aw1.out ++ p }, p.length, none)

/-- `Writer.Close`: error if already closed, otherwise emit the global header
if needed and mark the writer closed. -/
def Writer.Close (aw : Writer) : Writer × Option ArErr :=
  if aw.closed then (aw, some .closedTwice)
  else ({ aw.emitGlobal with closed := true }, none)

/-- `Writer.Write`: truncate `b` to the remaining expected size `nb` (flagging
`ErrWriteTooLong`), append the truncated bytes, decrement `nb`, and append one
pad byte `\n` when this call's byte count is odd.  Go's reslice `b[0:aw.nb]`
panics when `nb` is negative, modelled by `goPanic`. -/
def Writer.Write (aw : Writer) (b : List Nat) : Writer × Nat × Option ArErr :=
  let tooLong := aw.nb < (b.length : Int)
  if tooLong ∧ aw.nb < 0 then (aw, 0, some .goPanic)
  else
    let b1 := if tooLong then b.take aw.nb.toNat else b
    match aw.write b1 with
    | (aw1, n, some werr) => ({ aw1 with nb := aw1.nb - n }, n, some werr)
    | (aw1, n, none) =>
      let aw2 := { aw1 with nb := aw1.nb - n }
      if b1.length % 2 = 1 then
        match aw2.write [10] with
        | (aw3, _, some e) => (aw3, n, some e)
        | (aw3, _, none) => (aw3, n, if tooLong then some .writeTooLong else none)
      else (aw2, n, if tooLong then some .writeTooLong else none)

/-- The writer's `numeric` field encoder: decimal rendering, left-justified and
space-padded into `w` bytes (silently truncated if too long). -/
def Writer.numeric (w : Nat) (x : Int) : List Nat :=
  spacePad w (intRepr 10 x)

/-- The writer's `octal` field encoder: the literal prefix `100` followed by
the octal rendering, left-justified into 8 bytes. -/
def Writer.octal (x : Int) : List Nat :=
  spacePad 8 ([49, 48, 48] ++ intRepr 8 x)

/-- The writer's `string` field encoder. -/
def Writer.stringField (w : Nat) (s : List Nat) : List Nat :=
  spacePad w s

/-- The 44 bytes of a member header block that follow the 16-byte name field:
modTime(12), uid(6), gid(6), mode(8), size(10), terminator(2). -/
def headerTail (modTime uid gid mode size : Int) : List Nat :=
  Writer.numeric 12 modTime ++ Writer.numeric 6 uid ++ Writer.numeric 6 gid ++
    Writer.octal mode ++ Writer.numeric 10 size ++ Writer.stringField 2 [96, 10]

/-- The final emission steps of `WriteHeader`: write the 60-byte block via
the internal `write` (propagating its error), then — under the BSD variant and
only when the (possibly mutated) name is longer than 16 bytes — emit the name
bytes via `Write`, returning the mutated header in every case. -/
def Writer.finishHeader (aw1 : Writer) (hdr2 : Header) (block : List Nat) :
    Writer × Header × Option ArErr :=
  match aw1.write block with
  | (aw2, _, some e) => (aw2, hdr2, some e)
  | (aw2, _, none) =>
    if aw2.variant = .BSD ∧ 16 < hdr2.Name.length then
      match aw2.Write hdr2.Name with
      | (aw3, _, e) => (aw3, hdr2, e)
    else (aw2, hdr2, none)

/-- `Writer.WriteHeader` from the writer source (lines 195-271): set `nb` from
the declared size, reject empty names, resolve the 16-byte name field per
variant (GNU: string-table offset for names over 15 bytes; BSD: `#1/L` with the
NUL-padded name length for names over 16 bytes or containing a space, mutating
the caller's `Name` and `Size`), clamp pre-epoch modification times to the
epoch (mutating the caller's `ModTime`), emit the 60-byte block, and finally
(BSD, and only when the mutated name is longer than 16 bytes) emit the name
bytes via `Write`.  Returns the writer, the (possibly mutated) header, and an
optional error. -/
def Writer.WriteHeader (aw : Writer) (hdr : Header) : Writer × Header × Option ArErr :=
  let aw0 := { aw with nb := hdr.Size }
  if hdr.Name.length = 0 then (aw0, hdr, some .emptyFileName)
  else
    let nameField : Except ArErr (List Nat × Header) :=
      match aw0.variant with
      | .GNU =>
        if 15 < hdr.Name.length then
          if ¬ aw0.wroteStringTable then .error .missingStringTable
          else
            match aw0.stringTable.lookup hdr.Name with
            | none => .error (.missingStringTableEntry hdr.Name)
            | some offset => .ok (Writer.stringField 16 (47 :: natRepr 10 offset), hdr)
        else .ok (Writer.stringField 16 hdr.Name, hdr)
      | .BSD =>
        if 16 < hdr.Name.length ∨ 32 ∈ hdr.Name then
          let name1 := if hdr.Name.length % 2 = 1 then hdr.Name ++ [0] else hdr.Name
          .ok (Writer.stringField 16 ([35, 49, 47] ++ natRepr 10 name1.length),
            { hdr with Name := name1, Size := hdr.Size + name1.length })
        else .ok (Writer.stringField 16 hdr.Name, hdr)
    match nameField with
    | .error e => (aw0, hdr, some e)
    | .ok (field16, hdr1) =>
      let aw1 := if aw0.variant = .BSD ∧ (16 < hdr.Name.length ∨ 32 ∈ hdr.Name)
        then { aw0 with nb := aw0.nb + hdr1.Name.length } else aw0
      let hdr2 := if hdr1.ModTimeSec < 0
        then { hdr1 with ModTimeSec := 0, ModTimeNsec := 0 } else hdr1
      let block := field16 ++
        headerTail hdr2.ModTimeSec hdr2.Uid hdr2.Gid hdr2.Mode hdr2.Size
      Writer.finishHeader aw1 hdr2 block

/-- Reader state, mirroring the `Reader` struct of `reader.go` (lines
258-277): the unread bytes of the underlying stream (`rest`), the variant
detected at construction, the unread payload count `nb`, the pending pad count
`pad`, and the cached GNU string table (`none` until a `//` member is read). -/
structure Reader where
  rest : List Nat
  variant : Variant
  nb : Int
  pad : Int
  stringTable : Option (List Nat)
deriving DecidableEq, Repr

/-- `NewReader` (lines 281-311): consume exactly the 8 magic bytes, failing
with `ErrMissingGlobalHeader` when the stream is shorter and with
`ErrInvalidGlobalHeader` when they differ from the magic; then peek (without
consuming) at the first member's 16-byte name field, choosing the GNU variant
exactly when the space-trimmed field starts or ends with a slash, and BSD
otherwise (also when fewer than 16 bytes can be peeked). -/
def NewReader (input : List Nat) : Except ArErr Reader :=
  if input.length < 8 then .error .missingGlobalHeader
  else if input.take 8 ≠ GLOBAL_HEADER then .error .invalidGlobalHeader
  else
    let rest := input.drop 8
    let variant :=
      if 16 ≤ rest.length ∧
          (let ff := arTrim (rest.take 16)
           ff.head? = some 47 ∨ ff.getLast? = some 47)
      then Variant.GNU else Variant.BSD
    .ok { rest := rest, variant := variant, nb := 0, pad := 0, stringTable := none }

/-- `Reader.skipUnread`: zero the counters and discard `nb + pad` bytes; if the
stream ends first, `io.CopyN` reports `io.EOF`.  A nonpositive count discards
nothing and succeeds. -/
def Reader.skipUnread (rd : Reader) : Reader × Option ArErr :=
  let skip := (rd.nb + rd.pad).toNat
  let rd1 := { rd with nb := 0, pad := 0, rest := rd.rest.drop skip }
  if rd.rest.length < skip then (rd1, some .eof) else (rd1, none)

/-- `Reader.Read` (lines 498-509): end-of-data once `nb` reaches zero;
otherwise truncate the request to `nb` (Go's reslice panics when `nb` is
negative), serve bytes from the stream (one `bufio` read returns whatever is
available, up to the request; a read of zero bytes returns no error, and a
positive request on an exhausted stream returns `io.EOF`), and decrement `nb`
by the bytes actually delivered. -/
def Reader.Read (rd : Reader) (len : Nat) : Reader × List Nat × Option ArErr :=
  if rd.nb = 0 then (rd, [], some .eof)
  else if rd.nb < (len : Int) ∧ rd.nb < 0 then (rd, [], some .goPanic)
  else
    let len1 := if rd.nb < (len : Int) then rd.nb.toNat else len
    if len1 = 0 then (rd, [], none)
    else if rd.rest = [] then (rd, [], some .eof)
    else
      let taken := rd.rest.take len1
      ({ rd with rest := rd.rest.drop len1, nb := rd.nb - taken.length }, taken, none)

/-- Decode a 60-byte header block into a `Header`, following the field layout
consumed by `Next` via the `slicer`: name(16), modTime(12), uid(6), gid(6),
mode(8), size(10); the 2-byte terminator is ignored. -/
def decodeHeader (b : List Nat) : Header :=
  let s1 := b.drop 16
  let s2 := s1.drop 12
  let s3 := s2.drop 6
  let s4 := s3.drop 6
  let s5 := s4.drop 8
  { Name := arTrim (b.take 16)
    ModTimeSec := readNumeric (s1.take 12)
    ModTimeNsec := 0
    Uid := readNumeric (s2.take 6)
    Gid := readNumeric (s3.take 6)
    Mode := readOctal (s4.take 8)
    Size := readNumeric (s5.take 10) }

/-- `Reader.parseGNUFileName` (lines 429-469): resolve a leading-slash name
through the cached string table (missing table, unparsable or too-large offset,
and a missing terminating newline are errors; Go panics on a negative offset
when slicing the table, and on an empty resolved name when indexing its last
byte), then require a trailing slash and strip all trailing slashes. -/
def parseGNUFileName (table : Option (List Nat)) (hdr : Header) : Except ArErr Header :=
  if hdr.Name.length = 0 then .error (.fileNameZeroLength hdr.Name)
  else
    let resolved : Except ArErr (List Nat) :=
      if hdr.Name.head? = some 47 then
        match table with
        | none => .error (.fileNameMissingTable hdr.Name)
        | some t =>
          match parseInt 10 (hdr.Name.drop 1) with
          | none => .error (.fileNameInvalidOffset hdr.Name)
          | some start =>
            if (t.length : Int) < start then .error (.fileNameInvalidOffset hdr.Name)
            else if start < 0 then .error .goPanic
            else
              let entry := t.drop start.toNat
              match entry.findIdx? (fun c => c = 10) with
              | none => .error .stringTableMissingNewline
              | some idx => .ok (entry.take idx)
      else .ok hdr.Name
    match resolved with
    | .error e => .error e
    | .ok name =>
      if name = [] then .error .goPanic
      else if name.getLast? ≠ some 47 then .error (.fileNameMissingTrailingSlash name)
      else .ok { hdr with Name := dropTrailingSlashes name }

/-- `Reader.parseBSDFileName` (lines 471-495): a `#1/L` name prepends the real
name to the data section; subtract `L` from the declared size (before the
read, even if it later fails), read `L` bytes of name (Go's `make` panics on a
negative `L`; a short read leaves NUL bytes in the buffer, which are then
trimmed together with any padding NULs). -/
def parseBSDFileName (rd : Reader) (hdr : Header) : Reader × Except ArErr Header :=
  if hdr.Name.take 3 = [35, 49, 47] then
    match parseInt 10 (hdr.Name.drop 3) with
    | none => (rd, .error (.fileNameBadLength hdr.Name))
    | some length =>
      let hdr1 := { hdr with Size := hdr.Size - length }
      if length < 0 then (rd, .error .goPanic)
      else
        match rd.Read length.toNat with
        | (rd1, _, some e) =>
          (rd1, .error (if e = .goPanic then .goPanic else .fileNameReadEOF hdr.Name))
        | (rd1, taken, none) =>
          let filled := taken ++ List.replicate (length.toNat - taken.length) 0
          (rd1, .ok { hdr1 with Name := trimTrailingNuls filled })
  else (rd, .ok hdr)

def Reader.nextResolve (recur : Reader → Reader × Except ArErr Header)
    (rd2 : Reader) (hdr : Header) : Reader × Except ArErr Header :=
  match rd2.variant with
  | .GNU =>
    if hdr.Name = [47] then recur rd2
    else if hdr.Name = [47, 47] then
      if rd2.stringTable.isSome then (rd2, .error .stringTableMultiple)
      else if rd2.nb < 0 then (rd2, .error .goPanic)
      else
        match rd2.Read rd2.nb.toNat with
        | (rd3, _, some _) => (rd3, .error .stringTableReadEOF)
        | (rd3, taken, none) =>
          recur { rd3 with
            stringTable := some (taken ++ List.replicate (rd2.nb.toNat - taken.length) 0) }
    else
      match parseGNUFileName rd2.stringTable hdr with
      | .error e => (rd2, .error e)
      | .ok hdr1 =>
        if 47 ∈ hdr1.Name then (rd2, .error (.fileNameIllegalSlash hdr1.Name))
        else (rd2, .ok hdr1)
  | .BSD =>
    if hdr.Name = SYMDEF then recur rd2
    else
      match parseBSDFileName rd2 hdr with
      | (rd3, .error e) => (rd3, .error e)
      | (rd3, .ok hdr1) =>
        if 47 ∈ hdr1.Name then (rd3, .error (.fileNameIllegalSlash hdr1.Name))
        else (rd3, .ok hdr1)

/-- One step of `Reader.Next` (lines 354-427): skip the previous member's
unread payload and pad, read and decode the 60-byte header (a clean end of
stream is `io.EOF`, a partial header `io.ErrUnexpectedEOF`), set the payload
counters, and hand over to `nextResolve` for the variant-specific name
resolution and special-member skipping.  The Go code recurses directly; here
the recursion is the `recur` continuation supplied by the fuelled `nextGo`,
with fuel chosen in `Reader.Next` so that it can never run out, since every
recursion first consumes a 60-byte header from the stream. -/
def Reader.nextBody (recur : Reader → Reader × Except ArErr Header)
    (rd : Reader) : Reader × Except ArErr Header :=
  match rd.skipUnread with
  | (rd1, some e) => (rd1, .error e)
  | (rd1, none) =>
    if rd1.rest.length = 0 then (rd1, .error .eof)
    else if rd1.rest.length < 60 then (rd1, .error .unexpectedEOF)
    else
      let hdr := decodeHeader (rd1.rest.take 60)
      let newPad : Int := if hdr.Size.tmod 2 = 1 then 1 else 0
      let rd2 := { rd1 with rest := rd1.rest.drop 60, nb := hdr.Size, pad := newPad }
      Reader.nextResolve recur rd2 hdr

/-- Fuelled recursion for `Next`: each level runs one `nextBody` step, passing
the next level down as the continuation used past special members. -/
def Reader.nextGo : Nat → Reader → Reader × Except ArErr Header
  | 0, rd => (rd, .error .outOfFuel)
  | fuel + 1, rd => Reader.nextBody (Reader.nextGo fuel) rd

/-- `Reader.Next`: run `nextGo` with enough fuel that it cannot run out (each
recursion consumes at least 60 bytes of the stream first, so the recursion
depth is bounded by the stream length). -/
def Reader.Next (rd : Reader) : Reader × Except ArErr Header :=
  Reader.nextGo (rd.rest.length + 1) rd

/-- A 60-byte GNU string-table member header (name field `//`) declaring
size 0, as the writer would lay it out. -/
def c8block0 : List Nat :=
  spacePad 16 [47, 47] ++ spacePad 12 [48] ++ spacePad 6 [48] ++
    spacePad 6 [48] ++ spacePad 8 [48] ++ spacePad 10 [48] ++ [96, 10]

/-- A 60-byte GNU string-table member header (name field `//`) declaring
size 1. -/
def c8block1 : List Nat :=
  spacePad 16 [47, 47] ++ spacePad 12 [48] ++ spacePad 6 [48] ++
    spacePad 6 [48] ++ spacePad 8 [48] ++ spacePad 10 [49] ++ [96, 10]

/-! Lemmas about the byte-level helpers. -/

theorem dropWhile_replicate_append {p : Nat → Bool} {a : Nat} (hpa : p a = true)
    (k : Nat) (l : List Nat) :
    (List.replicate k a ++ l).dropWhile p = l.dropWhile p := by
  induction k with
  | zero => simp
  | succ k ih =>
    rw [List.replicate_succ, List.cons_append, List.dropWhile_cons]
    simp [hpa, ih]

theorem spacePad_length (w : Nat) (s : List Nat) : (spacePad w s).length = w := by
  simp only [spacePad, List.length_take, List.length_append, List.length_replicate]
  omega

theorem spacePad_of_le {w : Nat} {s : List Nat} (h : s.length ≤ w) :
    spacePad w s = s ++ List.replicate (w - s.length) 32 := by
  apply List.take_of_length_le
  simp only [List.length_append, List.length_replicate]
  omega

theorem arTrim_spacePad {w : Nat} {s : List Nat} (hne : s ≠ [])
    (hlast : s.getLast hne ≠ 32) (hlen : s.length ≤ w) :
    arTrim (spacePad w s) = s := by
  rw [spacePad_of_le hlen]
  have hsrev : s.reverse = s.getLast hne :: s.dropLast.reverse := by
    conv_lhs => rw [← List.dropLast_append_getLast hne]
    simp
  have hrev : (s ++ List.replicate (w - s.length) 32).reverse
      = List.replicate (w - s.length) 32 ++ s.reverse := by
    simp
  have hdrop : (s ++ List.replicate (w - s.length) 32).reverse.dropWhile
      (fun c => c = 32) = s.reverse := by
    rw [hrev, dropWhile_replicate_append (by simp), hsrev,
      List.dropWhile_cons_of_neg (by simpa using hlast)]
  have hne2 : s ++ List.replicate (w - s.length) 32 ≠ [] := by
    simp [hne]
  have hne3 : s.reverse ≠ [] := by simpa using hne
  simp only [arTrim, hne2, if_neg, hdrop, hne3, if_false, List.reverse_reverse]

theorem natDigitsAux_eq_digits {b : Nat} (hb : 2 ≤ b) :
    ∀ (fuel n : Nat), n ≤ fuel → natDigitsAux b fuel n = Nat.digits b n := by
  intro fuel
  induction fuel with
  | zero =>
    intro n hn
    have : n = 0 := by omega
    subst this
    simp [natDigitsAux]
  | succ fuel ih =>
    intro n hn
    by_cases h0 : n = 0
    · subst h0
      simp [natDigitsAux]
    · rw [natDigitsAux, if_neg h0,
        Nat.digits_def' (by omega : 1 < b) (by omega : 0 < n),
        ih (n / b) (by
          have := Nat.div_lt_self (by omega : 0 < n) (by omega : 1 < b)
          omega)]

theorem natRepr_eq_digits {b : Nat} (hb : 2 ≤ b) (n : Nat) :
    natRepr b n = if n = 0 then [48]
      else ((Nat.digits b n).map (fun d => d + 48)).reverse := by
  unfold natRepr
  rw [natDigitsAux_eq_digits hb n n (le_refl n)]

theorem natRepr_ne_nil (b n : Nat) : natRepr b n ≠ [] := by
  unfold natRepr
  split
  · simp
  · rename_i h0
    cases n with
    | zero => exact absurd rfl h0
    | succ m =>
      rw [natDigitsAux, if_neg h0]
      simp

theorem natRepr_mem {b n c : Nat} (hb : 2 ≤ b) (hc : c ∈ natRepr b n) :
    48 ≤ c ∧ c < 48 + b := by
  rw [natRepr_eq_digits hb] at hc
  split at hc
  · simp at hc
    omega
  · simp only [List.mem_reverse, List.mem_map] at hc
    obtain ⟨d, hd, rfl⟩ := hc
    have := Nat.digits_lt_base (by omega) hd
    omega

theorem parseNatAux_eq_foldl {b : Nat} (s : List Nat)
    (h : ∀ c ∈ s, 48 ≤ c ∧ c < 48 + b) (acc : Nat) :
    parseNatAux b acc s = some (s.foldl (fun a c => a * b + (c - 48)) acc) := by
  induction s generalizing acc with
  | nil => rfl
  | cons c cs ih =>
    have hc := h c (by simp)
    simp only [parseNatAux, digitVal, if_pos hc]
    rw [ih (fun x hx => h x (by simp [hx]))]
    rfl

theorem foldr_mapDigits {b : Nat} (L : List Nat) (acc : Nat) :
    (L.map (fun d => d + 48)).foldr (fun c a => a * b + (c - 48)) acc
      = acc * b ^ L.length + Nat.ofDigits b L := by
  induction L with
  | nil => simp [Nat.ofDigits_nil]
  | cons d L ih =>
    simp only [List.map_cons, List.foldr_cons, ih, Nat.ofDigits_cons,
      List.length_cons, pow_succ]
    ring_nf
    omega

theorem foldl_natRepr {b : Nat} (hb : 2 ≤ b) (n acc : Nat) :
    (natRepr b n).foldl (fun a c => a * b + (c - 48)) acc
      = acc * b ^ (natRepr b n).length + n := by
  rw [natRepr_eq_digits hb]
  split
  · subst n
    simp
  · rw [List.foldl_reverse]
    have := foldr_mapDigits (b := b) (Nat.digits b n) acc
    simp only [List.length_reverse, List.length_map]
    calc (Nat.digits b n |>.map fun d => d + 48).foldr (fun x y => y * b + (x - 48)) acc
        = acc * b ^ (Nat.digits b n).length + Nat.ofDigits b (Nat.digits b n) := this
      _ = acc * b ^ (Nat.digits b n).length + n := by rw [Nat.ofDigits_digits]

theorem parseNatDigits_natRepr {b : Nat} (hb : 2 ≤ b) (n : Nat) :
    parseNatDigits b (natRepr b n) = some n := by
  unfold parseNatDigits
  rw [if_neg (natRepr_ne_nil b n),
    parseNatAux_eq_foldl _ (fun c hc => natRepr_mem hb hc), foldl_natRepr hb]
  simp

theorem intRepr_ne_nil (b : Nat) (x : Int) : intRepr b x ≠ [] := by
  unfold intRepr
  split
  · simp
  · exact natRepr_ne_nil _ _

theorem intRepr_mem {b : Nat} {x : Int} {c : Nat} (hb : 2 ≤ b)
    (hc : c ∈ intRepr b x) : c = 45 ∨ (48 ≤ c ∧ c < 48 + b) := by
  unfold intRepr at hc
  split at hc
  · rw [List.mem_cons] at hc
    rcases hc with rfl | hc
    · left; rfl
    · right; exact natRepr_mem hb hc
  · right; exact natRepr_mem hb hc

theorem intRepr_getLast_ne_space {b : Nat} (hb : 2 ≤ b) (x : Int)
    (hne : intRepr b x ≠ []) : (intRepr b x).getLast hne ≠ 32 := by
  have hmem := List.getLast_mem hne
  rcases intRepr_mem hb hmem with h | h
  · omega
  · omega

theorem parseInt_neg_cons (b : Nat) (cs : List Nat) :
    parseInt b (45 :: cs) = (parseNatDigits b cs).map (fun n => -(Int.ofNat n)) := by
  simp [parseInt]

theorem parseInt_digit_head {b c : Nat} (cs : List Nat) (h1 : c ≠ 43)
    (h2 : c ≠ 45) :
    parseInt b (c :: cs) = (parseNatDigits b (c :: cs)).map Int.ofNat := by
  simp [parseInt, h1, h2]

theorem parseInt_intRepr {b : Nat} (hb : 2 ≤ b) (x : Int) :
    parseInt b (intRepr b x) = some x := by
  by_cases hx : x < 0
  · rw [intRepr, if_pos hx, parseInt_neg_cons, parseNatDigits_natRepr hb]
    simp only [Option.map_some']
    congr 1
    simp only [Int.ofNat_eq_natCast]
    omega
  · rw [intRepr, if_neg hx]
    obtain ⟨c, cs, hcons⟩ : ∃ c cs, natRepr b x.toNat = c :: cs := by
      cases h : natRepr b x.toNat with
      | nil => exact absurd h (natRepr_ne_nil _ _)
      | cons c cs => exact ⟨c, cs, rfl⟩
    have hc : 48 ≤ c ∧ c < 48 + b := natRepr_mem hb (by rw [hcons]; simp)
    rw [hcons, parseInt_digit_head cs (by omega) (by omega), ← hcons,
      parseNatDigits_natRepr hb]
    simp only [Option.map_some']
    congr 1
    simp only [Int.ofNat_eq_natCast]
    omega

theorem natRepr_length_le {b n k : Nat} (hb : 1 < b) (hk : 1 ≤ k)
    (h : n < b ^ k) : (natRepr b n).length ≤ k := by
  rw [natRepr_eq_digits (by omega)]
  split
  · simp only [List.length_cons, List.length_nil]
    omega
  · simp only [List.length_reverse, List.length_map]
    rw [Nat.digits_len b n hb (by assumption)]
    have := (Nat.lt_pow_iff_log_lt hb (by assumption)).mp h
    omega

theorem readNumeric_numeric {w : Nat} {x : Int}
    (h : (intRepr 10 x).length ≤ w) :
    readNumeric (Writer.numeric w x) = x := by
  unfold readNumeric Writer.numeric
  rw [arTrim_spacePad (intRepr_ne_nil 10 x)
    (intRepr_getLast_ne_space (by omega) x _) h, parseInt_intRepr (by omega)]
  rfl

theorem readOctal_octal {m : Int} (hm : 0 ≤ m)
    (hlen : (natRepr 8 m.toNat).length ≤ 5) :
    readOctal (Writer.octal m) = 64 * 8 ^ (natRepr 8 m.toNat).length + m := by
  unfold readOctal Writer.octal
  have hint : intRepr 8 m = natRepr 8 m.toNat := by
    unfold intRepr
    rw [if_neg (by omega)]
  rw [hint]
  have hne : ([49, 48, 48] ++ natRepr 8 m.toNat) ≠ [] := by simp
  have hnatne := natRepr_ne_nil 8 m.toNat
  have hlast : ([49, 48, 48] ++ natRepr 8 m.toNat).getLast hne ≠ 32 := by
    rw [List.getLast_append' _ _ hnatne]
    have := natRepr_mem (n := m.toNat) (by omega : 2 ≤ 8)
      (List.getLast_mem hnatne)
    omega
  have hlen2 : ([49, 48, 48] ++ natRepr 8 m.toNat).length ≤ 8 := by
    simp only [List.length_append, List.length_cons, List.length_nil]
    omega
  rw [arTrim_spacePad hne hlast hlen2]
  have hdigits : ∀ c ∈ [49, 48, 48] ++ natRepr 8 m.toNat, 48 ≤ c ∧ c < 48 + 8 := by
    intro c hc
    rw [List.mem_append] at hc
    rcases hc with hc | hc
    · simp at hc
      omega
    · exact natRepr_mem (by omega) hc
  have hcons : [49, 48, 48] ++ natRepr 8 m.toNat
      = 49 :: ([48, 48] ++ natRepr 8 m.toNat) := by simp
  rw [hcons, parseInt_digit_head _ (by omega) (by omega), ← hcons]
  unfold parseNatDigits
  rw [if_neg hne, parseNatAux_eq_foldl _ hdigits, List.foldl_append]
  have hac : List.foldl (fun a c => a * 8 + (c - 48)) 0 [49, 48, 48] = 64 := by rfl
  rw [hac, foldl_natRepr (by omega)]
  simp only [Option.map_some', Option.getD_some, Int.ofNat_eq_natCast]
  push_cast
  rw [Int.toNat_of_nonneg hm]

theorem headerTail_length (mt uid gid mode size : Int) :
    (headerTail mt uid gid mode size).length = 44 := by
  simp only [headerTail, List.length_append, Writer.numeric, Writer.octal,
    Writer.stringField, spacePad_length]

theorem decodeHeader_block (name : List Nat) (mt uid gid mode size : Int)
    (tail : List Nat) :
    decodeHeader ((Writer.stringField 16 name ++ headerTail mt uid gid mode size)
        ++ tail)
      = { Name := arTrim (spacePad 16 name)
          ModTimeSec := readNumeric (Writer.numeric 12 mt)
          ModTimeNsec := 0
          Uid := readNumeric (Writer.numeric 6 uid)
          Gid := readNumeric (Writer.numeric 6 gid)
          Mode := readOctal (Writer.octal mode)
          Size := readNumeric (Writer.numeric 10 size) } := by
  unfold decodeHeader headerTail Writer.stringField
  have h16 := spacePad_length 16 name
  have h12 := spacePad_length 12 (intRepr 10 mt)
  have h6u := spacePad_length 6 (intRepr 10 uid)
  have h6g := spacePad_length 6 (intRepr 10 gid)
  have h8 := spacePad_length 8 ([49, 48, 48] ++ intRepr 8 mode)
  have h10 := spacePad_length 10 (intRepr 10 size)
  simp only [Writer.numeric, Writer.octal, Writer.stringField, List.append_assoc]
  rw [List.take_left' h16, List.drop_left' h16,
    List.take_left' h12, List.drop_left' h12,
    List.take_left' h6u, List.drop_left' h6u,
    List.take_left' h6g, List.drop_left' h6g,
    List.take_left' h8, List.drop_left' h8,
    List.take_left' h10]

/-! Lemmas about the Reader's state transitions. -/

theorem skipUnread_rest_le (rd : Reader) :
    rd.skipUnread.1.rest.length ≤ rd.rest.length := by
  simp only [Reader.skipUnread]
  split <;> simp

theorem skipUnread_variant (rd : Reader) :
    rd.skipUnread.1.variant = rd.variant := by
  simp only [Reader.skipUnread]
  split <;> rfl

theorem skipUnread_zero {rd : Reader} (h1 : rd.nb = 0) (h2 : rd.pad = 0) :
    rd.skipUnread = (rd, none) := by
  obtain ⟨rest, variant, nb, pad, st⟩ := rd
  simp only at h1 h2
  subst h1 h2
  simp [Reader.skipUnread]

theorem Read_rest_le (rd : Reader) (n : Nat) :
    (rd.Read n).1.rest.length ≤ rd.rest.length := by
  simp only [Reader.Read]
  repeat' split
  all_goals simp

theorem Read_variant (rd : Reader) (n : Nat) :
    (rd.Read n).1.variant = rd.variant := by
  simp only [Reader.Read]
  repeat' split
  all_goals rfl

theorem parseBSDFileName_variant (rd : Reader) (hdr : Header) :
    (parseBSDFileName rd hdr).1.variant = rd.variant := by
  simp only [parseBSDFileName]
  split
  · split
    · rfl
    · rename_i length hp
      split
      · rfl
      · rcases hR : rd.Read length.toNat with ⟨rd1, taken, e⟩
        have hv := Read_variant rd length.toNat
        rw [hR] at hv
        cases e with
        | none => exact hv
        | some e1 => exact hv
  · rfl

theorem nextResolve_congr {r1 r2 : Reader → Reader × Except ArErr Header}
    (rd2 : Reader) (hdr : Header)
    (h : ∀ x : Reader, x.rest.length ≤ rd2.rest.length → r1 x = r2 x) :
    Reader.nextResolve r1 rd2 hdr = Reader.nextResolve r2 rd2 hdr := by
  simp only [Reader.nextResolve]
  split
  · split
    · exact h rd2 (le_refl _)
    · split
      · split
        · rfl
        · split
          · rfl
          · rcases hR : rd2.Read rd2.nb.toNat with ⟨rd3, taken, e2⟩
            have hle := Read_rest_le rd2 rd2.nb.toNat
            rw [hR] at hle
            cases e2 with
            | some e3 => rfl
            | none => exact h _ hle
      · rfl
  · split
    · exact h rd2 (le_refl _)
    · rfl

theorem nextResolve_variant {r : Reader → Reader × Except ArErr Header}
    (rd2 : Reader) (hdr : Header)
    (h : ∀ x : Reader, (r x).1.variant = x.variant) :
    (Reader.nextResolve r rd2 hdr).1.variant = rd2.variant := by
  simp only [Reader.nextResolve]
  split
  · split
    · exact h rd2
    · split
      · split
        · rfl
        · split
          · rfl
          · rcases hR : rd2.Read rd2.nb.toNat with ⟨rd3, taken, e2⟩
            have hv := Read_variant rd2 rd2.nb.toNat
            rw [hR] at hv
            cases e2 with
            | some e3 => exact hv
            | none => exact (h _).trans hv
      · split
        · rfl
        · split <;> rfl
  · split
    · exact h rd2
    · have hv := parseBSDFileName_variant rd2 hdr
      rcases hB : parseBSDFileName rd2 hdr with ⟨rd3, e2⟩
      rw [hB] at hv
      cases e2 with
      | error e3 => exact hv
      | ok hdr1 =>
        show (if 47 ∈ hdr1.Name
          then (rd3, Except.error (ArErr.fileNameIllegalSlash hdr1.Name))
          else (rd3, Except.ok hdr1)).1.variant = rd2.variant
        split <;> exact hv

theorem nextBody_congr {r1 r2 : Reader → Reader × Except ArErr Header}
    (rd : Reader)
    (h : ∀ x : Reader, x.rest.length + 60 ≤ rd.rest.length → r1 x = r2 x) :
    Reader.nextBody r1 rd = Reader.nextBody r2 rd := by
  have hskip := skipUnread_rest_le rd
  rcases hS : rd.skipUnread with ⟨rd1, eS⟩
  rw [hS] at hskip
  dsimp only at hskip
  simp only [Reader.nextBody, hS]
  cases eS with
  | some e => rfl
  | none =>
    dsimp only
    split
    · rfl
    · split
      · rfl
      · rename_i h0 h60
        apply nextResolve_congr
        intro x hx
        apply h
        simp only [List.length_drop] at hx
        omega

theorem nextBody_variant {r : Reader → Reader × Except ArErr Header}
    (rd : Reader) (h : ∀ x : Reader, (r x).1.variant = x.variant) :
    (Reader.nextBody r rd).1.variant = rd.variant := by
  have hvar := skipUnread_variant rd
  rcases hS : rd.skipUnread with ⟨rd1, eS⟩
  rw [hS] at hvar
  simp only [Reader.nextBody, hS]
  cases eS with
  | some e => exact hvar
  | none =>
    dsimp only
    split
    · exact hvar
    · split
      · exact hvar
      · exact (nextResolve_variant _ _ h).trans hvar

theorem nextGo_variant : ∀ (f : Nat) (rd : Reader),
    (Reader.nextGo f rd).1.variant = rd.variant := by
  intro f
  induction f with
  | zero => intro rd; rfl
  | succ f ih =>
    intro rd
    simp only [Reader.nextGo]
    exact nextBody_variant rd ih

theorem nextGo_congr : ∀ (f g : Nat) (rd : Reader),
    rd.rest.length < f → rd.rest.length < g →
    Reader.nextGo f rd = Reader.nextGo g rd := by
  intro f
  induction f with
  | zero => intro g rd hf; omega
  | succ f ih =>
    intro g rd hf hg
    cases g with
    | zero => omega
    | succ g =>
      simp only [Reader.nextGo]
      apply nextBody_congr
      intro x hx
      exact ih g x (by omega) (by omega)

theorem Next_eq_body (rd : Reader) :
    rd.Next = Reader.nextBody Reader.Next rd := by
  unfold Reader.Next
  simp only [Reader.nextGo]
  apply nextBody_congr
  intro x hx
  exact nextGo_congr rd.rest.length (x.rest.length + 1) x (by omega) (by omega)

theorem Next_variant (rd : Reader) : (rd.Next).1.variant = rd.variant :=
  nextGo_variant _ rd

/-! Pipeline lemmas: what the writer emits for a member on the literal-name
path, and what the reader recovers from it. -/

theorem intRepr_length_le_ten {x : Int} {k : Nat} (hk : 1 ≤ k)
    (h1 : -((10 : Int) ^ (k - 1)) < x) (h2 : x < (10 : Int) ^ k) :
    (intRepr 10 x).length ≤ k := by
  unfold intRepr
  split
  · rename_i hx
    simp only [List.length_cons]
    have hk2 : 2 ≤ k := by
      by_contra hcon
      have hk1 : k = 1 := by omega
      subst hk1
      norm_num at h1
      omega
    have habs : x.natAbs < 10 ^ (k - 1) := by
      have : ((x.natAbs : Int)) < (10 : Int) ^ (k - 1) := by omega
      have hcast : ((10 : Int) ^ (k - 1)) = ((10 ^ (k - 1) : Nat) : Int) := by
        push_cast
        ring
      rw [hcast] at this
      exact_mod_cast this
    have := natRepr_length_le (b := 10) (by omega) (by omega) habs
    omega
  · rename_i hx
    have htn : x.toNat < 10 ^ k := by
      have : x < ((10 ^ k : Nat) : Int) := by push_cast; exact h2
      omega
    exact natRepr_length_le (by omega) hk htn

theorem arTrim_noSpace {w : Nat} {s : List Nat} (hne : s ≠ [])
    (hspace : 32 ∉ s) (hlen : s.length ≤ w) : arTrim (spacePad w s) = s :=
  arTrim_spacePad hne
    (fun hl => hspace (hl ▸ List.getLast_mem hne)) hlen

theorem emitGlobal_variant (aw : Writer) : aw.emitGlobal.variant = aw.variant := by
  unfold Writer.emitGlobal
  split <;> rfl

theorem emitGlobal_closed (aw : Writer) : aw.emitGlobal.closed = aw.closed := by
  unfold Writer.emitGlobal
  split <;> rfl

theorem emitGlobal_nb (aw : Writer) : aw.emitGlobal.nb = aw.nb := by
  unfold Writer.emitGlobal
  split <;> rfl

theorem write_open {aw : Writer} (hclosed : aw.closed = false) (p : List Nat) :
    aw.write p = ({ aw.emitGlobal with out := aw.emitGlobal.out ++ p },
      p.length, none) := by
  unfold Writer.write
  rw [if_neg (by simp [hclosed])]

theorem emitGlobal_wroteHeader (aw : Writer) : aw.emitGlobal.wroteHeader = true := by
  unfold Writer.emitGlobal
  split
  · assumption
  · rfl

theorem emitGlobal_of_wroteHeader {aw : Writer} (h : aw.wroteHeader = true) :
    aw.emitGlobal = aw := by
  unfold Writer.emitGlobal
  rw [if_pos h]

theorem Write_exact (aw : Writer) (b : List Nat)
    (hclosed : aw.closed = false) (hnb : aw.nb = b.length) :
    aw.Write b = ({ aw.emitGlobal with
        out := (aw.emitGlobal.out ++ b) ++ (if b.length % 2 = 1 then [10] else []),
        nb := 0 }, b.length, none) := by
  have hTL : ¬ aw.nb < (b.length : Int) := by omega
  unfold Writer.Write
  dsimp only
  rw [if_neg (show ¬ (aw.nb < (b.length : Int) ∧ aw.nb < 0) by omega),
    if_neg hTL, write_open hclosed]
  dsimp only
  have hclosed2 : ((⟨aw.emitGlobal.out ++ b, aw.emitGlobal.variant, aw.emitGlobal.closed, aw.emitGlobal.wroteHeader, aw.emitGlobal.wroteStringTable, aw.emitGlobal.nb - (b.length : Int), aw.emitGlobal.stringTable⟩ : Writer)).closed = false :=
    (emitGlobal_closed aw).trans hclosed
  have hnb0 : aw.emitGlobal.nb - (b.length : Int) = 0 := by
    rw [emitGlobal_nb, hnb]
    ring
  by_cases hodd : b.length % 2 = 1
  · rw [if_pos hodd, write_open hclosed2,
      emitGlobal_of_wroteHeader (by simp only [emitGlobal_wroteHeader])]
    dsimp only
    rw [if_neg hTL, if_pos hodd, hnb0]
  · rw [if_neg hodd]
    rw [if_neg hTL, hnb0]
    simp
    omega

theorem WriteHeader_literal (aw : Writer) (hdr : Header)
    (hclosed : aw.closed = false)
    (hne : hdr.Name ≠ [])
    (hGNU : aw.variant = .GNU → hdr.Name.length ≤ 15)
    (hBSD : aw.variant = .BSD → hdr.Name.length ≤ 16 ∧ 32 ∉ hdr.Name)
    (hmt : 0 ≤ hdr.ModTimeSec) :
    aw.WriteHeader hdr =
      ({ Writer.emitGlobal { aw with nb := hdr.Size } with
          out := (Writer.emitGlobal { aw with nb := hdr.Size }).out ++
            (Writer.stringField 16 hdr.Name ++
              headerTail hdr.ModTimeSec hdr.Uid hdr.Gid hdr.Mode hdr.Size) },
        hdr, none) := by
  have hnel : ¬ hdr.Name.length = 0 := by
    simpa [List.length_eq_zero] using hne
  have hmtneg : ¬ hdr.ModTimeSec < 0 := by omega
  obtain ⟨o, v, c, wh, wst, nb0, st⟩ := aw
  simp only at hclosed hGNU hBSD
  subst hclosed
  cases v with
  | GNU =>
    have h15 := hGNU rfl
    unfold Writer.WriteHeader
    rw [if_neg hnel]
    dsimp only
    rw [if_neg (by omega : ¬ 15 < hdr.Name.length)]
    dsimp only
    rw [if_neg (by simp), if_neg hmtneg]
    simp only [Writer.finishHeader]
    rw [@write_open ⟨o, .GNU, false, wh, wst, hdr.Size, st⟩ rfl]
    dsimp only
    rw [if_neg (by
      intro hcon
      have h2 := hcon.1
      simp only [emitGlobal_variant] at h2
      exact absurd h2 (by simp))]
  | BSD =>
    obtain ⟨h16, hsp⟩ := hBSD rfl
    have hlong : ¬ (16 < hdr.Name.length ∨ 32 ∈ hdr.Name) := by
      push_neg
      exact ⟨by omega, hsp⟩
    unfold Writer.WriteHeader
    rw [if_neg hnel]
    dsimp only
    rw [if_neg hlong]
    dsimp only
    rw [if_neg (by
      intro hcon
      exact hlong hcon.2), if_neg hmtneg]
    simp only [Writer.finishHeader]
    rw [@write_open ⟨o, .BSD, false, wh, wst, hdr.Size, st⟩ rfl]
    dsimp only
    rw [if_neg (by
      intro hcon
      exact absurd hcon.2 (by omega))]


theorem NewReader_magic (rest : List Nat) :
    NewReader (GLOBAL_HEADER ++ rest) = .ok
      { rest := rest
        variant := if 16 ≤ rest.length ∧
            ((arTrim (rest.take 16)).head? = some 47 ∨
              (arTrim (rest.take 16)).getLast? = some 47)
          then Variant.GNU else Variant.BSD
        nb := 0
        pad := 0
        stringTable := none } := by
  unfold NewReader
  have h8 : (GLOBAL_HEADER : List Nat).length = 8 := rfl
  rw [if_neg (by simp [GLOBAL_HEADER]), if_neg (by
    rw [List.take_left' h8]
    simp), List.drop_left' h8]

theorem Read_all (rd : Reader) (p tail2 : List Nat)
    (hrest : rd.rest = p ++ tail2) (hnb : rd.nb = p.length) :
    rd.Read p.length =
      if p = [] then (rd, [], some .eof)
      else ({ rd with rest := tail2, nb := 0 }, p, none) := by
  by_cases hp : p = []
  · rw [if_pos hp]
    subst hp
    unfold Reader.Read
    rw [if_pos (by rw [hnb]; rfl)]
  · rw [if_neg hp]
    have hlen : 0 < p.length := List.length_pos.mpr hp
    unfold Reader.Read
    rw [if_neg (show ¬ rd.nb = 0 by rw [hnb]; omega),
      if_neg (show ¬ (rd.nb < (p.length : Int) ∧ rd.nb < 0) by rw [hnb]; omega)]
    dsimp only
    rw [if_neg (show ¬ rd.nb < (p.length : Int) by rw [hnb]; omega),
      if_neg (show ¬ p.length = 0 by omega),
      if_neg (show ¬ rd.rest = [] by rw [hrest]; simp [hp])]
    have htake : rd.rest.take p.length = p := by
      rw [hrest, List.take_left]
    have hdrop : rd.rest.drop p.length = tail2 := by
      rw [hrest, List.drop_left]
    rw [htake, hdrop, show rd.nb - (p.length : Int) = 0 from by rw [hnb]; ring]

theorem Next_BSD_literal (rd : Reader) (name : List Nat)
    (mt uid gid mode size : Int) (tail : List Nat)
    (hrest : rd.rest =
      Writer.stringField 16 name ++ headerTail mt uid gid mode size ++ tail)
    (hv : rd.variant = .BSD) (hnb : rd.nb = 0) (hpad : rd.pad = 0)
    (htrim : arTrim (spacePad 16 name) = name)
    (hsym : name ≠ SYMDEF)
    (hslash : 47 ∉ name)
    (h12 : (intRepr 10 mt).length ≤ 12)
    (h6u : (intRepr 10 uid).length ≤ 6)
    (h6g : (intRepr 10 gid).length ≤ 6)
    (hm : 0 ≤ mode) (hmlen : (natRepr 8 mode.toNat).length ≤ 5)
    (h10 : (intRepr 10 size).length ≤ 10) :
    rd.Next =
      ({ rd with
          rest := tail
          nb := size
          pad := if size.tmod 2 = 1 then 1 else 0 },
        .ok
          { Name := name
            ModTimeSec := mt
            ModTimeNsec := 0
            Uid := uid
            Gid := gid
            Mode := 64 * 8 ^ (natRepr 8 mode.toNat).length + mode
            Size := size }) := by
  have hA : (Writer.stringField 16 name).length = 16 := spacePad_length 16 name
  have hAB : (Writer.stringField 16 name ++
      headerTail mt uid gid mode size).length = 60 := by
    rw [List.length_append, hA, headerTail_length]
  have htake60 : rd.rest.take 60 =
      Writer.stringField 16 name ++ headerTail mt uid gid mode size := by
    rw [hrest, List.take_left' hAB]
  have hdrop60 : rd.rest.drop 60 = tail := by
    rw [hrest, List.drop_left' hAB]
  have hrlen : rd.rest.length = 60 + tail.length := by
    rw [hrest, List.length_append, hAB]
  have hdec : decodeHeader (rd.rest.take 60) =
      { Name := name
        ModTimeSec := mt
        ModTimeNsec := 0
        Uid := uid
        Gid := gid
        Mode := 64 * 8 ^ (natRepr 8 mode.toNat).length + mode
        Size := size } := by
    rw [htake60]
    have h := decodeHeader_block name mt uid gid mode size []
    rw [List.append_nil] at h
    rw [h, readNumeric_numeric h12, readNumeric_numeric h6u,
      readNumeric_numeric h6g, readNumeric_numeric h10,
      readOctal_octal hm hmlen]
    rw [show spacePad 16 name = Writer.stringField 16 name from rfl] at htrim ⊢
    rw [htrim]
  have hpre : name.take 3 ≠ [35, 49, 47] := by
    intro hcon
    have h47 : 47 ∈ name.take 3 := by rw [hcon]; simp
    exact hslash (List.take_subset _ _ h47)
  rw [Next_eq_body]
  simp only [Reader.nextBody, skipUnread_zero hnb hpad]
  rw [if_neg (by omega), if_neg (by omega), hdec, hdrop60]
  simp only [Reader.nextResolve, hv]
  dsimp only
  rw [if_neg (by simpa using hsym)]
  simp only [parseBSDFileName]
  rw [if_neg (by simpa using hpre)]
  dsimp only
  rw [if_neg (by simpa using hslash)]

theorem pipeline_literal (v : Variant) (hdr : Header) (payload : List Nat)
    (hne : hdr.Name ≠ [])
    (hlen : hdr.Name.length ≤ 15)
    (hslash : 47 ∉ hdr.Name)
    (hspace : 32 ∉ hdr.Name)
    (hsym : hdr.Name ≠ SYMDEF)
    (hmt1 : 0 ≤ hdr.ModTimeSec) (hmt2 : hdr.ModTimeSec < 1000000000000)
    (hu1 : -100000 < hdr.Uid) (hu2 : hdr.Uid < 1000000)
    (hg1 : -100000 < hdr.Gid) (hg2 : hdr.Gid < 1000000)
    (hm1 : 0 ≤ hdr.Mode) (hm2 : hdr.Mode < 32768)
    (hs1 : 0 ≤ hdr.Size) (hs2 : hdr.Size < 10000000000)
    (hp : payload.length = hdr.Size.toNat) :
    ((NewWriter v).WriteHeader hdr).2.2 = none ∧
    ((NewWriter v).WriteHeader hdr).2.1 = hdr ∧
    (((NewWriter v).WriteHeader hdr).1.Write payload).2.2 = none ∧
    (((NewWriter v).WriteHeader hdr).1.Write payload).2.1 = payload.length ∧
    ∃ rd : Reader,
      NewReader (((NewWriter v).WriteHeader hdr).1.Write payload).1.out = .ok rd ∧
      rd.Next.2 = .ok
        { Name := hdr.Name
          ModTimeSec := hdr.ModTimeSec
          ModTimeNsec := 0
          Uid := hdr.Uid
          Gid := hdr.Gid
          Mode := 64 * 8 ^ (natRepr 8 hdr.Mode.toNat).length + hdr.Mode
          Size := hdr.Size } ∧
      rd.Next.1.rest = payload ++ (if payload.length % 2 = 1 then [10] else []) ∧
      (rd.Next.1.Read hdr.Size.toNat).2.1 = payload := by
  have h12 : (intRepr 10 hdr.ModTimeSec).length ≤ 12 := by
    apply intRepr_length_le_ten (by omega)
    · norm_num
      omega
    · norm_num
      omega
  have h6u : (intRepr 10 hdr.Uid).length ≤ 6 := by
    apply intRepr_length_le_ten (by omega)
    · norm_num
      omega
    · norm_num
      omega
  have h6g : (intRepr 10 hdr.Gid).length ≤ 6 := by
    apply intRepr_length_le_ten (by omega)
    · norm_num
      omega
    · norm_num
      omega
  have h10 : (intRepr 10 hdr.Size).length ≤ 10 := by
    apply intRepr_length_le_ten (by omega)
    · norm_num
      omega
    · norm_num
      omega
  have hmlen : (natRepr 8 hdr.Mode.toNat).length ≤ 5 := by
    apply natRepr_length_le (by omega) (by omega)
    norm_num
    omega
  have h16 : hdr.Name.length ≤ 16 := by omega
  have htrim : arTrim (spacePad 16 hdr.Name) = hdr.Name :=
    arTrim_noSpace hne hspace h16
  have hszcast : hdr.Size = (payload.length : Int) := by
    rw [hp]
    exact (Int.toNat_of_nonneg hs1).symm
  have hWH := WriteHeader_literal (NewWriter v) hdr rfl hne (fun _ => hlen)
    (fun _ => ⟨h16, hspace⟩) hmt1
  have hw1 : (Writer.emitGlobal { NewWriter v with nb := hdr.Size }) =
      (⟨GLOBAL_HEADER, v, false, true, false, hdr.Size, []⟩ : Writer) := by
    simp [NewWriter, Writer.emitGlobal]
  rw [hw1] at hWH
  have hWr := Write_exact
    (⟨GLOBAL_HEADER ++ (Writer.stringField 16 hdr.Name ++
        headerTail hdr.ModTimeSec hdr.Uid hdr.Gid hdr.Mode hdr.Size),
      v, false, true, false, hdr.Size, []⟩ : Writer) payload rfl hszcast
  rw [emitGlobal_of_wroteHeader rfl] at hWr
  refine ⟨by rw [hWH], by rw [hWH], ?_, ?_, ?_⟩
  · rw [hWH]
    dsimp only
    rw [hWr]
  · rw [hWH]
    dsimp only
    rw [hWr]
  · rw [hWH]
    dsimp only
    rw [hWr]
    dsimp only
    have hout : ((GLOBAL_HEADER ++ (Writer.stringField 16 hdr.Name ++
        headerTail hdr.ModTimeSec hdr.Uid hdr.Gid hdr.Mode hdr.Size)) ++ payload)
          ++ (if payload.length % 2 = 1 then [10] else []) =
        GLOBAL_HEADER ++ (Writer.stringField 16 hdr.Name ++
          (headerTail hdr.ModTimeSec hdr.Uid hdr.Gid hdr.Mode hdr.Size ++
            (payload ++ (if payload.length % 2 = 1 then [10] else [])))) := by
      simp [List.append_assoc]
    have hA : (Writer.stringField 16 hdr.Name).length = 16 :=
      spacePad_length 16 hdr.Name
    have htake16 : (Writer.stringField 16 hdr.Name ++
        (headerTail hdr.ModTimeSec hdr.Uid hdr.Gid hdr.Mode hdr.Size ++
          (payload ++ (if payload.length % 2 = 1 then [10] else [])))).take 16 =
        Writer.stringField 16 hdr.Name := List.take_left' hA
    have htrim2 : arTrim (Writer.stringField 16 hdr.Name) = hdr.Name := htrim
    have hvar : ¬ (16 ≤ (Writer.stringField 16 hdr.Name ++
        (headerTail hdr.ModTimeSec hdr.Uid hdr.Gid hdr.Mode hdr.Size ++
          (payload ++ (if payload.length % 2 = 1 then [10] else [])))).length ∧
        (hdr.Name.head? = some 47 ∨ hdr.Name.getLast? = some 47)) := by
      rintro ⟨h1, h2 | h2⟩
      · exact hslash (List.mem_of_mem_head? (by rw [h2]; simp))
      · exact hslash (List.mem_of_mem_getLast? (by rw [h2]; simp))
    rw [hout, NewReader_magic, htake16, htrim2, if_neg hvar]
    refine ⟨_, rfl, ?_, ?_, ?_⟩
    · rw [Next_BSD_literal _ hdr.Name hdr.ModTimeSec hdr.Uid hdr.Gid hdr.Mode
        hdr.Size (payload ++ (if payload.length % 2 = 1 then [10] else []))
        (by rw [List.append_assoc]) rfl rfl rfl htrim hsym hslash
        h12 h6u h6g hm1 hmlen h10]
    · rw [Next_BSD_literal _ hdr.Name hdr.ModTimeSec hdr.Uid hdr.Gid hdr.Mode
        hdr.Size (payload ++ (if payload.length % 2 = 1 then [10] else []))
        (by rw [List.append_assoc]) rfl rfl rfl htrim hsym hslash
        h12 h6u h6g hm1 hmlen h10]
    · rw [Next_BSD_literal _ hdr.Name hdr.ModTimeSec hdr.Uid hdr.Gid hdr.Mode
        hdr.Size (payload ++ (if payload.length % 2 = 1 then [10] else []))
        (by rw [List.append_assoc]) rfl rfl rfl htrim hsym hslash
        h12 h6u h6g hm1 hmlen h10]
      dsimp only
      rw [← hp]
      rw [Read_all _ payload (if payload.length % 2 = 1 then [10] else []) rfl
        (by dsimp only; omega)]
      by_cases hpe : payload = []
      · rw [if_pos hpe, hpe]
      · rw [if_neg hpe]

/-! Claim C1. -/

/-- C1, counterexample to the claim as stated: take the Header with name `a`,
modTime -1 seconds (before the Unix epoch), uid 0, gid 0, mode 0, size 0 and
an empty payload, written under the BSD variant.  Reading the produced bytes
back yields ModTimeSec 0 — not -1, because `WriteHeader` clamps pre-epoch
times to the epoch — and Mode 512 — not 0, because the mode field is encoded
as the literal prefix `100` followed by the octal rendering, and decoding
parses the whole field (here `1000`, octal 512).  Both -1 and 0 are
representable in their fields, so the claimed equality (modTime merely floored
to seconds, mode merely restricted to representable bits) fails. -/
theorem c1_roundTrip_counterexample :
    ∃ rd : Reader,
      NewReader (((NewWriter .BSD).WriteHeader
        ⟨[97], -1, 0, 0, 0, 0, 0⟩).1.Write []).1.out = .ok rd ∧
      rd.Next.2 = .ok ⟨[97], 0, 0, 0, 0, 512, 0⟩ ∧
      ((0 : Int) ≠ -1 ∧ (512 : Int) ≠ 0) := by
  refine ⟨_, rfl, rfl, by decide⟩

/-- C1 (amended): for every Header whose name is nonempty, at most 15 bytes,
contains no slash and no space, and is not `__.SYMDEF`, whose modTime is at
least the epoch, and whose numeric fields fit their fixed-width header fields
(modTime below 10^12; uid and gid strictly between -10^5 and 10^6; mode
nonnegative and below 8^5; size nonnegative and below 10^10), and every
payload of Size bytes: writing the member with `WriteHeader` then `Write`
under either variant and reading the bytes back with `NewReader`, `Next` and
`Read` succeeds and returns the same Name, ModTime (floored to whole
seconds), Uid, Gid and Size, the identical payload bytes, and a Mode equal to
the value obtained by parsing, as octal, the literal `100` prefix followed by
the octal rendering of the original mode (64 * 8 ^ digits + mode). -/
theorem c1_roundTrip_amended (v : Variant) (hdr : Header) (payload : List Nat)
    (hne : hdr.Name ≠ [])
    (hlen : hdr.Name.length ≤ 15)
    (hslash : 47 ∉ hdr.Name)
    (hspace : 32 ∉ hdr.Name)
    (hsym : hdr.Name ≠ SYMDEF)
    (hmt1 : 0 ≤ hdr.ModTimeSec) (hmt2 : hdr.ModTimeSec < 1000000000000)
    (hu1 : -100000 < hdr.Uid) (hu2 : hdr.Uid < 1000000)
    (hg1 : -100000 < hdr.Gid) (hg2 : hdr.Gid < 1000000)
    (hm1 : 0 ≤ hdr.Mode) (hm2 : hdr.Mode < 32768)
    (hs1 : 0 ≤ hdr.Size) (hs2 : hdr.Size < 10000000000)
    (hp : payload.length = hdr.Size.toNat) :
    ((NewWriter v).WriteHeader hdr).2.2 = none ∧
    ((NewWriter v).WriteHeader hdr).2.1 = hdr ∧
    (((NewWriter v).WriteHeader hdr).1.Write payload).2.2 = none ∧
    (((NewWriter v).WriteHeader hdr).1.Write payload).2.1 = payload.length ∧
    ∃ rd : Reader,
      NewReader (((NewWriter v).WriteHeader hdr).1.Write payload).1.out = .ok rd ∧
      rd.Next.2 = .ok
        { Name := hdr.Name
          ModTimeSec := hdr.ModTimeSec
          ModTimeNsec := 0
          Uid := hdr.Uid
          Gid := hdr.Gid
          Mode := 64 * 8 ^ (natRepr 8 hdr.Mode.toNat).length + hdr.Mode
          Size := hdr.Size } ∧
      rd.Next.1.rest = payload ++ (if payload.length % 2 = 1 then [10] else []) ∧
      (rd.Next.1.Read hdr.Size.toNat).2.1 = payload :=
  pipeline_literal v hdr payload hne hlen hslash hspace hsym hmt1 hmt2 hu1 hu2
    hg1 hg2 hm1 hm2 hs1 hs2 hp

/-- C1 witness: the amended round trip instantiated at a concrete member
(name `a`, modTime 5, uid 3, gid 4, mode 0o644, size 1, payload `X`) under
the BSD variant, with every hypothesis discharged by computation. -/
theorem c1_roundTrip_witness :
    (0 : Int) ≤ 5 ∧
    ∃ rd : Reader,
      NewReader (((NewWriter .BSD).WriteHeader
        ⟨[97], 5, 0, 3, 4, 420, 1⟩).1.Write [88]).1.out = .ok rd ∧
      rd.Next.2 = .ok
        { Name := [97]
          ModTimeSec := 5
          ModTimeNsec := 0
          Uid := 3
          Gid := 4
          Mode := 64 * 8 ^ (natRepr 8 (420 : Int).toNat).length + 420
          Size := 1 } ∧
      rd.Next.1.rest = [88] ++ (if ([88] : List Nat).length % 2 = 1 then [10] else []) ∧
      (rd.Next.1.Read (1 : Int).toNat).2.1 = [88] :=
  ⟨by decide,
    (c1_roundTrip_amended .BSD ⟨[97], 5, 0, 3, 4, 420, 1⟩ [88]
      (by decide) (by decide) (by decide) (by decide) (by decide)
      (by decide) (by decide) (by decide) (by decide) (by decide) (by decide)
      (by decide) (by decide) (by decide) (by decide) (by decide)).2.2.2.2⟩

/-! Claim C2. -/

set_option maxRecDepth 4000 in
/-- C2, evaluation at the failing input: under the BSD variant, writing a
Header with the 3-byte name `a b` (contains a space, so the long-name path is
taken) and size 0 emits a header whose name field declares `#1/4` and whose
size field declares 4, mutates the caller's header to Name `a b\x00` and
Size 4, and leaves the expected-payload counter at 4 — but emits only
68 bytes (8-byte magic plus the 60-byte header block): the 4 name bytes are
never written to the stream, because the final emission step at the end of
`WriteHeader` tests `len(hdr.Name) > 16` instead of the condition of the
long-name branch.  This contradicts the claim (and the code's own comment,
which says the name is prepended to the data section). -/
theorem c2_bsdSpace_bug :
    ((NewWriter .BSD).WriteHeader ⟨[97, 32, 98], 0, 0, 0, 0, 0, 0⟩).2.2 = none ∧
    ((NewWriter .BSD).WriteHeader ⟨[97, 32, 98], 0, 0, 0, 0, 0, 0⟩).2.1.Name
      = [97, 32, 98, 0] ∧
    ((NewWriter .BSD).WriteHeader ⟨[97, 32, 98], 0, 0, 0, 0, 0, 0⟩).2.1.Size = 4 ∧
    ((NewWriter .BSD).WriteHeader ⟨[97, 32, 98], 0, 0, 0, 0, 0, 0⟩).1.nb = 4 ∧
    ((NewWriter .BSD).WriteHeader ⟨[97, 32, 98], 0, 0, 0, 0, 0, 0⟩).1.out.take 12
      = GLOBAL_HEADER ++ [35, 49, 47, 52] ∧
    ((NewWriter .BSD).WriteHeader ⟨[97, 32, 98], 0, 0, 0, 0, 0, 0⟩).1.out.length
      = 68 := by
  refine ⟨rfl, rfl, rfl, rfl, by decide, by decide⟩

/-! Claim C9. -/

set_option maxRecDepth 8000 in
/-- C9, evaluation at the failing input: a GNU archive whose string table
(member `//`, 2 bytes `a\n`) is followed by a member whose name field is a
slash followed by `-5`.  `strconv.Atoi` parses the offset -5 successfully, the guard only
checks `start > len(table)`, and the slice `stringTable[-5:]` then panics at
runtime (modelled by `goPanic`) instead of returning the error the claim
requires. -/
theorem c9_negativeOffset_bug :
    ∃ rd : Reader,
      NewReader (GLOBAL_HEADER ++ (Writer.stringField 16 [47, 47] ++
        (headerTail 0 0 0 0 2 ++ ([97, 10] ++
          (Writer.stringField 16 [47, 45, 53] ++ headerTail 0 0 0 0 0))))) = .ok rd ∧
      rd.variant = .GNU ∧
      rd.Next.2 = .error .goPanic := by
  refine ⟨_, rfl, rfl, rfl⟩

/-! Claim C4. -/

/-- C4, counterexample to the claim as stated: after `WriteHeader` with
declared size 1 and `Close`, the writer's remaining expected size is still 1,
and `Write` of 2 bytes is a call supplying more bytes than the remaining
expected payload size — but it returns count 0 (not the truncated count 1)
with the closed-writer error (not `ErrWriteTooLong`), because the closed
check inside the internal `write` overrides the too-long handling. -/
theorem c4_writeTooLong_counterexample :
    (((NewWriter .BSD).WriteHeader ⟨[97], 0, 0, 0, 0, 0, 1⟩).1.Close).1.nb = 1 ∧
    ((((NewWriter .BSD).WriteHeader ⟨[97], 0, 0, 0, 0, 0, 1⟩).1.Close).1.Write
      [97, 98]).2.1 = 0 ∧
    ((((NewWriter .BSD).WriteHeader ⟨[97], 0, 0, 0, 0, 0, 1⟩).1.Close).1.Write
      [97, 98]).2.2 = some .closedWriter ∧
    ((0 : Nat) ≠ 1 ∧ some ArErr.closedWriter ≠ some ArErr.writeTooLong) := by
  refine ⟨rfl, rfl, rfl, by decide⟩

/-- C4 (amended): for every call to `Writer.Write` on a writer that has not
been closed and whose remaining expected size is nonnegative, supplying more
bytes than the remaining expected size: the supplied bytes are truncated to
the remaining size, only the global header (if still pending), the truncated
prefix and possibly one pad byte reach the stream — never the excess bytes —
the returned count is the truncated count, and the distinguished error
`ErrWriteTooLong` is returned. -/
theorem c4_writeTooLong_amended (aw : Writer) (b : List Nat)
    (hclosed : aw.closed = false) (hnb0 : 0 ≤ aw.nb)
    (hlong : aw.nb < (b.length : Int)) :
    (aw.Write b).2.1 = aw.nb.toNat ∧
    (aw.Write b).2.2 = some .writeTooLong ∧
    (aw.Write b).1.out = (aw.emitGlobal.out ++ b.take aw.nb.toNat) ++
      (if aw.nb.toNat % 2 = 1 then [10] else []) ∧
    (aw.Write b).1.nb = 0 := by
  have hlen : (b.take aw.nb.toNat).length = aw.nb.toNat := by
    rw [List.length_take]
    omega
  unfold Writer.Write
  dsimp only
  rw [if_neg (show ¬ (aw.nb < (b.length : Int) ∧ aw.nb < 0) by omega),
    if_pos hlong, write_open hclosed]
  dsimp only
  rw [hlen]
  by_cases hodd : aw.nb.toNat % 2 = 1
  · rw [if_pos hodd]
    have hX := @write_open ⟨aw.emitGlobal.out ++ List.take aw.nb.toNat b, aw.emitGlobal.variant, aw.emitGlobal.closed, aw.emitGlobal.wroteHeader, aw.emitGlobal.wroteStringTable, aw.emitGlobal.nb - (aw.nb.toNat : Int), aw.emitGlobal.stringTable⟩ ((emitGlobal_closed aw).trans hclosed) [10]
    rw [@emitGlobal_of_wroteHeader ⟨aw.emitGlobal.out ++ List.take aw.nb.toNat b, aw.emitGlobal.variant, aw.emitGlobal.closed, aw.emitGlobal.wroteHeader, aw.emitGlobal.wroteStringTable, aw.emitGlobal.nb - (aw.nb.toNat : Int), aw.emitGlobal.stringTable⟩ (emitGlobal_wroteHeader aw)] at hX
    rw [hX]
    dsimp only
    rw [if_pos hlong]
    refine ⟨rfl, rfl, ?_, ?_⟩
    · dsimp only
      rw [if_pos hodd]
    · dsimp only
      rw [show aw.emitGlobal.nb = aw.nb from emitGlobal_nb aw]
      omega
  · rw [if_neg hodd]
    dsimp only
    rw [if_pos hlong, if_neg hodd]
    refine ⟨rfl, rfl, by simp, ?_⟩
    dsimp only
    rw [show aw.emitGlobal.nb = aw.nb from emitGlobal_nb aw]
    omega

/-- C4 witness: the amended statement at a concrete open writer expecting one
more byte, written two bytes. -/
theorem c4_writeTooLong_witness :
    (((NewWriter .BSD).WriteHeader ⟨[97], 0, 0, 0, 0, 0, 1⟩).1.closed = false ∧
      ((NewWriter .BSD).WriteHeader ⟨[97], 0, 0, 0, 0, 0, 1⟩).1.nb = 1) ∧
    ((((NewWriter .BSD).WriteHeader ⟨[97], 0, 0, 0, 0, 0, 1⟩).1.Write
        [97, 98]).2.1 =
      ((NewWriter .BSD).WriteHeader ⟨[97], 0, 0, 0, 0, 0, 1⟩).1.nb.toNat ∧
      (((NewWriter .BSD).WriteHeader ⟨[97], 0, 0, 0, 0, 0, 1⟩).1.Write
        [97, 98]).2.2 = some .writeTooLong) :=
  ⟨⟨rfl, rfl⟩,
    ⟨(c4_writeTooLong_amended _ [97, 98] rfl (by decide) (by decide)).1,
      (c4_writeTooLong_amended _ [97, 98] rfl (by decide) (by decide)).2.1⟩⟩

/-! Claim C3. -/

theorem arTrim_ne_nil {b : List Nat} (h : b ≠ []) : arTrim b ≠ [] := by
  unfold arTrim
  rw [if_neg h]
  dsimp only
  split
  · simpa using h
  · rename_i ht
    simpa using ht

/-- C3, counterexample to the claim as stated: a GNU archive whose single
member has the literal name field `a//`.  The claim says exactly one trailing
slash is stripped, so the returned name would be `a/` (and the subsequent
illegal-slash check would then reject it); the code's `strings.TrimRight`
strips both slashes and `Next` succeeds with name `a`. -/
theorem c3_trailingSlash_counterexample :
    ∃ rd rd2 : Reader,
      NewReader (GLOBAL_HEADER ++ Writer.stringField 16 [97, 47, 47] ++
        headerTail 0 0 0 0 0) = .ok rd ∧
      rd.variant = .GNU ∧
      rd.Next = (rd2, .ok ⟨[97], 0, 0, 0, 0, 512, 0⟩) ∧
      ([97] : List Nat) ≠ [97, 47] := by
  refine ⟨_, _, rfl, rfl, rfl, by decide⟩

/-- C3 (amended): for every GNU-variant member whose (literal, not
string-table-resolved) name field does not start with a slash: if the trimmed
name does not end with a slash, `Next` fails with the missing-trailing-slash
`ErrFileName`; if it does end with a slash, all trailing slashes are stripped
before the header is returned (the claim said exactly one), subject to the
final illegal-slash check on the stripped name. -/
theorem c3_trailingSlash_amended (rd : Reader) (n : List Nat)
    (hv : rd.variant = .GNU) (hnb : rd.nb = 0) (hpad : rd.pad = 0)
    (hlen : 60 ≤ rd.rest.length)
    (hn : (decodeHeader (rd.rest.take 60)).Name = n)
    (hhead : n.head? ≠ some 47) :
    (n.getLast? ≠ some 47 →
      rd.Next.2 = .error (.fileNameMissingTrailingSlash n)) ∧
    (n.getLast? = some 47 →
      (47 ∈ dropTrailingSlashes n →
        rd.Next.2 = .error (.fileNameIllegalSlash (dropTrailingSlashes n))) ∧
      (47 ∉ dropTrailingSlashes n →
        rd.Next.2 = .ok
          { decodeHeader (rd.rest.take 60) with Name := dropTrailingSlashes n })) := by
  have hne : n ≠ [] := by
    rw [← hn]
    show arTrim ((rd.rest.take 60).take 16) ≠ []
    apply arTrim_ne_nil
    have : ((rd.rest.take 60).take 16).length = 16 := by
      simp only [List.length_take]
      omega
    intro hcon
    rw [hcon] at this
    simp at this
  have h47single : n ≠ [47] := by
    intro hc
    exact hhead (by rw [hc]; rfl)
  have h47double : n ≠ [47, 47] := by
    intro hc
    exact hhead (by rw [hc]; rfl)
  rw [Next_eq_body]
  simp only [Reader.nextBody, skipUnread_zero hnb hpad]
  rw [if_neg (by omega), if_neg (by omega)]
  simp only [Reader.nextResolve, hv, parseGNUFileName]
  rw [hn]
  rw [if_neg h47single, if_neg h47double,
    if_neg (by simpa [List.length_eq_zero] using hne), if_neg hhead]
  dsimp only
  rw [if_neg hne]
  constructor
  · intro h1
    rw [if_pos h1]
  · intro h2
    rw [if_neg (by simp [h2])]
    dsimp only
    constructor
    · intro hmem
      rw [if_pos hmem]
    · intro hmem
      rw [if_neg hmem]

/-- C3 witness: the amended statement instantiated at a concrete GNU reader
positioned at a member with literal name field `b/`: the stripped name is `b`
and `Next` succeeds. -/
theorem c3_trailingSlash_witness :
    ((⟨Writer.stringField 16 [98, 47] ++ headerTail 0 0 0 0 0, .GNU, 0, 0,
        none⟩ : Reader).rest.length ≥ 60 ∧
      ([98, 47] : List Nat).getLast? = some 47) ∧
    ((47 : Nat) ∉ dropTrailingSlashes [98, 47] →
      (⟨Writer.stringField 16 [98, 47] ++ headerTail 0 0 0 0 0, .GNU, 0, 0,
        none⟩ : Reader).Next.2 = .ok
        { decodeHeader ((⟨Writer.stringField 16 [98, 47] ++
            headerTail 0 0 0 0 0, .GNU, 0, 0, none⟩ : Reader).rest.take 60) with
          Name := dropTrailingSlashes [98, 47] }) :=
  ⟨⟨by decide, by decide⟩,
    ((c3_trailingSlash_amended _ [98, 47] rfl rfl rfl (by decide) (by decide)
      (by decide)).2 (by decide)).2⟩

/-! Claim C6. -/

/-- C6 (confirmed): `NewReader` consumes exactly the 8 magic bytes.  A stream
shorter than 8 bytes fails with `ErrMissingGlobalHeader`; 8 or more bytes
whose first 8 differ from the magic fail with `ErrInvalidGlobalHeader`;
otherwise construction succeeds, positioned exactly after the 8 magic
bytes. -/
theorem c6_newReader (input : List Nat) :
    (input.length < 8 → NewReader input = .error .missingGlobalHeader) ∧
    (8 ≤ input.length → input.take 8 ≠ GLOBAL_HEADER →
      NewReader input = .error .invalidGlobalHeader) ∧
    (input.take 8 = GLOBAL_HEADER →
      ∃ rd : Reader, NewReader input = .ok rd ∧ rd.rest = input.drop 8 ∧
        rd.nb = 0 ∧ rd.pad = 0 ∧ rd.stringTable = none) := by
  refine ⟨?_, ?_, ?_⟩
  · intro h
    unfold NewReader
    rw [if_pos h]
  · intro h1 h2
    unfold NewReader
    rw [if_neg (by omega), if_pos h2]
  · intro h
    have h8 : 8 ≤ input.length := by
      have hl := congrArg List.length h
      rw [List.length_take] at hl
      have : (GLOBAL_HEADER : List Nat).length = 8 := rfl
      omega
    unfold NewReader
    rw [if_neg (by omega), if_neg (by simp [h])]
    exact ⟨_, rfl, rfl, rfl, rfl, rfl⟩

/-- C6 witness: the three cases at concrete inputs — the empty stream, an
8-byte stream of zeros, and the bare magic (an empty archive). -/
theorem c6_newReader_witness :
    NewReader [] = .error .missingGlobalHeader ∧
    NewReader [0, 0, 0, 0, 0, 0, 0, 0] = .error .invalidGlobalHeader ∧
    ∃ rd : Reader, NewReader GLOBAL_HEADER = .ok rd ∧
      rd.rest = GLOBAL_HEADER.drop 8 ∧ rd.nb = 0 ∧ rd.pad = 0 ∧
      rd.stringTable = none :=
  ⟨(c6_newReader []).1 (by decide),
    (c6_newReader [0, 0, 0, 0, 0, 0, 0, 0]).2.1 (by decide) (by decide),
    (c6_newReader GLOBAL_HEADER).2.2 (by decide)⟩

/-! Claim C7. -/

/-- C7 (confirmed): after a valid global header, `NewReader` peeks (without
consuming: the reader is positioned exactly at offset 8) at the first
member's 16-byte name field, and the variant is GNU exactly when at least 16
bytes exist and the space-trimmed field starts or ends with a slash, BSD
otherwise (in particular for an empty archive); `Next` and `Read` never
change the variant. -/
theorem c7_variantDetection :
    (∀ (input : List Nat) (rd : Reader), NewReader input = .ok rd →
      rd.rest = input.drop 8 ∧
      (rd.variant = .GNU ↔ 16 ≤ (input.drop 8).length ∧
        ((arTrim ((input.drop 8).take 16)).head? = some 47 ∨
          (arTrim ((input.drop 8).take 16)).getLast? = some 47))) ∧
    (∀ rd : Reader, rd.Next.1.variant = rd.variant) ∧
    (∀ (rd : Reader) (n : Nat), (rd.Read n).1.variant = rd.variant) := by
  refine ⟨?_, Next_variant, Read_variant⟩
  intro input rd h
  unfold NewReader at h
  split at h
  · simp at h
  · split at h
    · simp at h
    · rw [Except.ok.injEq] at h
      subst h
      refine ⟨rfl, ?_⟩
      show (if _ then Variant.GNU else Variant.BSD) = Variant.GNU ↔ _
      split
      · rename_i hcond
        simpa using hcond
      · rename_i hcond
        simpa using hcond

/-- C7 witness: the detection part applied to the empty archive (bare magic):
the reader sits at offset 8 and the variant is BSD, matching the (false)
GNU condition. -/
theorem c7_variantDetection_witness :
    (⟨[], .BSD, 0, 0, none⟩ : Reader).rest = GLOBAL_HEADER.drop 8 ∧
    ((⟨[], .BSD, 0, 0, none⟩ : Reader).variant = .GNU ↔
      16 ≤ (GLOBAL_HEADER.drop 8).length ∧
      ((arTrim ((GLOBAL_HEADER.drop 8).take 16)).head? = some 47 ∨
        (arTrim ((GLOBAL_HEADER.drop 8).take 16)).getLast? = some 47)) :=
  c7_variantDetection.1 GLOBAL_HEADER ⟨[], .BSD, 0, 0, none⟩ rfl

/-- `strconv.ParseInt` on the digit string produced by `strconv.FormatInt`
for a natural number recovers that number. -/
theorem parseInt_natRepr {b : Nat} (hb : 2 ≤ b) (n : Nat) :
    parseInt b (natRepr b n) = some (n : Int) := by
  obtain ⟨c, cs, hcons⟩ : ∃ c cs, natRepr b n = c :: cs := by
    cases h : natRepr b n with
    | nil => exact absurd h (natRepr_ne_nil _ _)
    | cons c cs => exact ⟨c, cs, rfl⟩
  have hc : 48 ≤ c ∧ c < 48 + b := natRepr_mem hb (by rw [hcons]; simp)
  rw [hcons, parseInt_digit_head cs (by omega) (by omega), ← hcons,
    parseNatDigits_natRepr hb]
  simp [Int.ofNat_eq_natCast]

/-- Trimming trailing NUL bytes introduces no new bytes. -/
theorem trimTrailingNuls_not_mem {c : Nat} {s : List Nat} (h : c ∉ s) :
    c ∉ trimTrailingNuls s := by
  intro hc
  apply h
  unfold trimTrailingNuls at hc
  rw [List.mem_reverse] at hc
  have h2 := (List.dropWhile_sublist _).subset hc
  rw [List.mem_reverse] at h2
  exact h2

/-- `Writer.Write` on an open writer with at least `b.length` bytes still
expected: the bytes (plus a pad byte when the call's length is odd) are
appended and `nb` decreases by the byte count. -/
theorem Write_le (aw : Writer) (b : List Nat)
    (hclosed : aw.closed = false) (hnb : (b.length : Int) ≤ aw.nb) :
    aw.Write b = ({ aw.emitGlobal with
        out := (aw.emitGlobal.out ++ b) ++ (if b.length % 2 = 1 then [10] else []),
        nb := aw.nb - b.length }, b.length, none) := by
  have hTL : ¬ aw.nb < (b.length : Int) := by omega
  unfold Writer.Write
  dsimp only
  rw [if_neg (show ¬ (aw.nb < (b.length : Int) ∧ aw.nb < 0) by omega),
    if_neg hTL, write_open hclosed]
  dsimp only
  have hclosed2 : ((⟨aw.emitGlobal.out ++ b, aw.emitGlobal.variant, aw.emitGlobal.closed, aw.emitGlobal.wroteHeader, aw.emitGlobal.wroteStringTable, aw.emitGlobal.nb - (b.length : Int), aw.emitGlobal.stringTable⟩ : Writer)).closed = false :=
    (emitGlobal_closed aw).trans hclosed
  have hnb0 : aw.emitGlobal.nb - (b.length : Int) = aw.nb - b.length := by
    rw [emitGlobal_nb]
  by_cases hodd : b.length % 2 = 1
  · rw [if_pos hodd, write_open hclosed2,
      emitGlobal_of_wroteHeader (by simp only [emitGlobal_wroteHeader])]
    dsimp only
    rw [if_neg hTL, if_pos hodd, hnb0]
  · rw [if_neg hodd]
    rw [if_neg hTL, hnb0]
    simp
    omega

/-- `Reader.Read` of a full prefix of the stream when at least that many
payload bytes remain: the prefix is returned and `nb` decreases by its
length. -/
theorem Read_front (rd : Reader) (p tail2 : List Nat)
    (hrest : rd.rest = p ++ tail2) (hp : p ≠ [])
    (hnb : (p.length : Int) ≤ rd.nb) :
    rd.Read p.length =
      ({ rd with rest := tail2, nb := rd.nb - p.length }, p, none) := by
  have hlen : 0 < p.length := List.length_pos.mpr hp
  unfold Reader.Read
  rw [if_neg (show ¬ rd.nb = 0 by omega),
    if_neg (show ¬ (rd.nb < (p.length : Int) ∧ rd.nb < 0) by omega)]
  dsimp only
  rw [if_neg (show ¬ rd.nb < (p.length : Int) by omega),
    if_neg (show ¬ p.length = 0 by omega),
    if_neg (show ¬ rd.rest = [] by rw [hrest]; simp [hp])]
  have htake : rd.rest.take p.length = p := by rw [hrest, List.take_left]
  have hdrop : rd.rest.drop p.length = tail2 := by rw [hrest, List.drop_left]
  rw [htake, hdrop]

/-- `WriteHeader` on the literal-name path without any modTime restriction:
like `WriteHeader_literal`, but a pre-epoch modTime is clamped to the epoch in
both the emitted block and the returned header. -/
theorem WriteHeader_literal_clamp (aw : Writer) (hdr : Header)
    (hclosed : aw.closed = false)
    (hne : hdr.Name ≠ [])
    (hGNU : aw.variant = .GNU → hdr.Name.length ≤ 15)
    (hBSD : aw.variant = .BSD → hdr.Name.length ≤ 16 ∧ 32 ∉ hdr.Name) :
    aw.WriteHeader hdr =
      ({ Writer.emitGlobal { aw with nb := hdr.Size } with
          out := (Writer.emitGlobal { aw with nb := hdr.Size }).out ++
            (Writer.stringField 16 hdr.Name ++
              headerTail (if hdr.ModTimeSec < 0 then 0 else hdr.ModTimeSec)
                hdr.Uid hdr.Gid hdr.Mode hdr.Size) },
        (if hdr.ModTimeSec < 0 then
          { hdr with ModTimeSec := 0, ModTimeNsec := 0 } else hdr),
        none) := by
  have hnel : ¬ hdr.Name.length = 0 := by
    simpa [List.length_eq_zero] using hne
  obtain ⟨o, v, c, wh, wst, nb0, st⟩ := aw
  simp only at hclosed hGNU hBSD
  subst hclosed
  cases v with
  | GNU =>
    have h15 := hGNU rfl
    unfold Writer.WriteHeader
    rw [if_neg hnel]
    dsimp only
    rw [if_neg (by omega : ¬ 15 < hdr.Name.length)]
    dsimp only
    rw [if_neg (by simp)]
    by_cases hmt : hdr.ModTimeSec < 0
    · simp only [if_pos hmt]
      simp only [Writer.finishHeader]
      rw [@write_open ⟨o, .GNU, false, wh, wst, hdr.Size, st⟩ rfl]
      dsimp only
      rw [if_neg (by
        intro hcon
        have h2 := hcon.1
        simp only [emitGlobal_variant] at h2
        exact absurd h2 (by simp))]
    · simp only [if_neg hmt]
      simp only [Writer.finishHeader]
      rw [@write_open ⟨o, .GNU, false, wh, wst, hdr.Size, st⟩ rfl]
      dsimp only
      rw [if_neg (by
        intro hcon
        have h2 := hcon.1
        simp only [emitGlobal_variant] at h2
        exact absurd h2 (by simp))]
  | BSD =>
    obtain ⟨h16, hsp⟩ := hBSD rfl
    have hlong : ¬ (16 < hdr.Name.length ∨ 32 ∈ hdr.Name) := by
      push_neg
      exact ⟨by omega, hsp⟩
    unfold Writer.WriteHeader
    rw [if_neg hnel]
    dsimp only
    rw [if_neg hlong]
    dsimp only
    rw [if_neg (by
      intro hcon
      exact hlong hcon.2)]
    by_cases hmt : hdr.ModTimeSec < 0
    · simp only [if_pos hmt]
      simp only [Writer.finishHeader]
      rw [@write_open ⟨o, .BSD, false, wh, wst, hdr.Size, st⟩ rfl]
      dsimp only
      rw [if_neg (by
        intro hcon
        exact absurd hcon.2 (by omega))]
    · simp only [if_neg hmt]
      simp only [Writer.finishHeader]
      rw [@write_open ⟨o, .BSD, false, wh, wst, hdr.Size, st⟩ rfl]
      dsimp only
      rw [if_neg (by
        intro hcon
        exact absurd hcon.2 (by omega))]

/-- `WriteHeader` on the BSD long-name path (name longer than 16 bytes): the
name field becomes `#1/L` with `L` the NUL-padded-to-even name length, the
declared size and `nb` are increased by `L`, the 60-byte block is emitted,
and — `L` being over 16 — the padded name bytes are emitted right after it,
bringing `nb` back down to the declared payload size. -/
theorem WriteHeader_BSD_long (aw : Writer) (hdr : Header)
    (hclosed : aw.closed = false)
    (hv : aw.variant = .BSD)
    (hlong : 16 < hdr.Name.length)
    (hs1 : 0 ≤ hdr.Size) :
    aw.WriteHeader hdr =
      ({ Writer.emitGlobal { aw with
            nb := hdr.Size + ((if hdr.Name.length % 2 = 1 then hdr.Name ++ [0]
              else hdr.Name).length : Int) } with
          out := ((Writer.emitGlobal { aw with
              nb := hdr.Size + ((if hdr.Name.length % 2 = 1 then hdr.Name ++ [0]
                else hdr.Name).length : Int) }).out ++
            (Writer.stringField 16 ([35, 49, 47] ++ natRepr 10
                (if hdr.Name.length % 2 = 1 then hdr.Name ++ [0]
                  else hdr.Name).length) ++
              headerTail (if hdr.ModTimeSec < 0 then 0 else hdr.ModTimeSec)
                hdr.Uid hdr.Gid hdr.Mode
                (hdr.Size + ((if hdr.Name.length % 2 = 1 then hdr.Name ++ [0]
                  else hdr.Name).length : Int)))) ++
            (if hdr.Name.length % 2 = 1 then hdr.Name ++ [0] else hdr.Name),
          nb := hdr.Size },
        (if hdr.ModTimeSec < 0 then
          { hdr with
              Name := if hdr.Name.length % 2 = 1 then hdr.Name ++ [0]
                else hdr.Name,
              Size := hdr.Size + ((if hdr.Name.length % 2 = 1 then hdr.Name ++ [0]
                else hdr.Name).length : Int),
              ModTimeSec := 0, ModTimeNsec := 0 }
         else
          { hdr with
              Name := if hdr.Name.length % 2 = 1 then hdr.Name ++ [0]
                else hdr.Name,
              Size := hdr.Size + ((if hdr.Name.length % 2 = 1 then hdr.Name ++ [0]
                else hdr.Name).length : Int) }),
        none) := by
  have hnel : ¬ hdr.Name.length = 0 := by omega
  have h16L : 16 < (if hdr.Name.length % 2 = 1 then hdr.Name ++ [0]
      else hdr.Name).length := by
    split
    · simp
      omega
    · omega
  have heven : ¬ (if hdr.Name.length % 2 = 1 then hdr.Name ++ [0]
      else hdr.Name).length % 2 = 1 := by
    split
    · simp
      omega
    · omega
  obtain ⟨o, v, c, wh, wst, nb0, st⟩ := aw
  simp only at hclosed hv
  subst hclosed hv
  unfold Writer.WriteHeader
  rw [if_neg hnel]
  dsimp only
  rw [if_pos (Or.inl hlong)]
  dsimp only
  rw [if_pos (show Variant.BSD = Variant.BSD ∧
      (16 < hdr.Name.length ∨ 32 ∈ hdr.Name) from ⟨rfl, Or.inl hlong⟩)]
  by_cases hmt : hdr.ModTimeSec < 0
  · simp only [if_pos hmt]
    simp only [Writer.finishHeader]
    rw [@write_open ⟨o, .BSD, false, wh, wst,
      hdr.Size + ((if hdr.Name.length % 2 = 1 then hdr.Name ++ [0] else hdr.Name).length : Int), st⟩ rfl]
    dsimp only
    rw [if_pos (by exact ⟨(emitGlobal_variant _).trans rfl, h16L⟩)]
    rw [Write_le (⟨(Writer.emitGlobal (⟨o, .BSD, false, wh, wst, hdr.Size + ((if hdr.Name.length % 2 = 1 then hdr.Name ++ [0] else hdr.Name).length : Int), st⟩ : Writer)).out ++ (Writer.stringField 16 ([35, 49, 47] ++ natRepr 10 (if hdr.Name.length % 2 = 1 then hdr.Name ++ [0] else hdr.Name).length) ++ headerTail 0 hdr.Uid hdr.Gid hdr.Mode (hdr.Size + ((if hdr.Name.length % 2 = 1 then hdr.Name ++ [0] else hdr.Name).length : Int))), (Writer.emitGlobal (⟨o, .BSD, false, wh, wst, hdr.Size + ((if hdr.Name.length % 2 = 1 then hdr.Name ++ [0] else hdr.Name).length : Int), st⟩ : Writer)).variant, (Writer.emitGlobal (⟨o, .BSD, false, wh, wst, hdr.Size + ((if hdr.Name.length % 2 = 1 then hdr.Name ++ [0] else hdr.Name).length : Int), st⟩ : Writer)).closed, (Writer.emitGlobal (⟨o, .BSD, false, wh, wst, hdr.Size + ((if hdr.Name.length % 2 = 1 then hdr.Name ++ [0] else hdr.Name).length : Int), st⟩ : Writer)).wroteHeader, (Writer.emitGlobal (⟨o, .BSD, false, wh, wst, hdr.Size + ((if hdr.Name.length % 2 = 1 then hdr.Name ++ [0] else hdr.Name).length : Int), st⟩ : Writer)).wroteStringTable, (Writer.emitGlobal (⟨o, .BSD, false, wh, wst, hdr.Size + ((if hdr.Name.length % 2 = 1 then hdr.Name ++ [0] else hdr.Name).length : Int), st⟩ : Writer)).nb, (Writer.emitGlobal (⟨o, .BSD, false, wh, wst, hdr.Size + ((if hdr.Name.length % 2 = 1 then hdr.Name ++ [0] else hdr.Name).length : Int), st⟩ : Writer)).stringTable⟩ : Writer)
      (if hdr.Name.length % 2 = 1 then hdr.Name ++ [0] else hdr.Name)
      ((emitGlobal_closed _).trans rfl)
      (by simp only [emitGlobal_nb]; omega)]
    rw [@emitGlobal_of_wroteHeader (⟨(Writer.emitGlobal (⟨o, .BSD, false, wh, wst, hdr.Size + ((if hdr.Name.length % 2 = 1 then hdr.Name ++ [0] else hdr.Name).length : Int), st⟩ : Writer)).out ++ (Writer.stringField 16 ([35, 49, 47] ++ natRepr 10 (if hdr.Name.length % 2 = 1 then hdr.Name ++ [0] else hdr.Name).length) ++ headerTail 0 hdr.Uid hdr.Gid hdr.Mode (hdr.Size + ((if hdr.Name.length % 2 = 1 then hdr.Name ++ [0] else hdr.Name).length : Int))), (Writer.emitGlobal (⟨o, .BSD, false, wh, wst, hdr.Size + ((if hdr.Name.length % 2 = 1 then hdr.Name ++ [0] else hdr.Name).length : Int), st⟩ : Writer)).variant, (Writer.emitGlobal (⟨o, .BSD, false, wh, wst, hdr.Size + ((if hdr.Name.length % 2 = 1 then hdr.Name ++ [0] else hdr.Name).length : Int), st⟩ : Writer)).closed, (Writer.emitGlobal (⟨o, .BSD, false, wh, wst, hdr.Size + ((if hdr.Name.length % 2 = 1 then hdr.Name ++ [0] else hdr.Name).length : Int), st⟩ : Writer)).wroteHeader, (Writer.emitGlobal (⟨o, .BSD, false, wh, wst, hdr.Size + ((if hdr.Name.length % 2 = 1 then hdr.Name ++ [0] else hdr.Name).length : Int), st⟩ : Writer)).wroteStringTable, (Writer.emitGlobal (⟨o, .BSD, false, wh, wst, hdr.Size + ((if hdr.Name.length % 2 = 1 then hdr.Name ++ [0] else hdr.Name).length : Int), st⟩ : Writer)).nb, (Writer.emitGlobal (⟨o, .BSD, false, wh, wst, hdr.Size + ((if hdr.Name.length % 2 = 1 then hdr.Name ++ [0] else hdr.Name).length : Int), st⟩ : Writer)).stringTable⟩ : Writer)
      (emitGlobal_wroteHeader _)]
    dsimp only
    rw [if_neg heven, List.append_nil, emitGlobal_nb]
    dsimp only
    rw [add_sub_cancel_right]
  · simp only [if_neg hmt]
    simp only [Writer.finishHeader]
    rw [@write_open ⟨o, .BSD, false, wh, wst,
      hdr.Size + ((if hdr.Name.length % 2 = 1 then hdr.Name ++ [0] else hdr.Name).length : Int), st⟩ rfl]
    dsimp only
    rw [if_pos (by exact ⟨(emitGlobal_variant _).trans rfl, h16L⟩)]
    rw [Write_le (⟨(Writer.emitGlobal (⟨o, .BSD, false, wh, wst, hdr.Size + ((if hdr.Name.length % 2 = 1 then hdr.Name ++ [0] else hdr.Name).length : Int), st⟩ : Writer)).out ++ (Writer.stringField 16 ([35, 49, 47] ++ natRepr 10 (if hdr.Name.length % 2 = 1 then hdr.Name ++ [0] else hdr.Name).length) ++ headerTail hdr.ModTimeSec hdr.Uid hdr.Gid hdr.Mode (hdr.Size + ((if hdr.Name.length % 2 = 1 then hdr.Name ++ [0] else hdr.Name).length : Int))), (Writer.emitGlobal (⟨o, .BSD, false, wh, wst, hdr.Size + ((if hdr.Name.length % 2 = 1 then hdr.Name ++ [0] else hdr.Name).length : Int), st⟩ : Writer)).variant, (Writer.emitGlobal (⟨o, .BSD, false, wh, wst, hdr.Size + ((if hdr.Name.length % 2 = 1 then hdr.Name ++ [0] else hdr.Name).length : Int), st⟩ : Writer)).closed, (Writer.emitGlobal (⟨o, .BSD, false, wh, wst, hdr.Size + ((if hdr.Name.length % 2 = 1 then hdr.Name ++ [0] else hdr.Name).length : Int), st⟩ : Writer)).wroteHeader, (Writer.emitGlobal (⟨o, .BSD, false, wh, wst, hdr.Size + ((if hdr.Name.length % 2 = 1 then hdr.Name ++ [0] else hdr.Name).length : Int), st⟩ : Writer)).wroteStringTable, (Writer.emitGlobal (⟨o, .BSD, false, wh, wst, hdr.Size + ((if hdr.Name.length % 2 = 1 then hdr.Name ++ [0] else hdr.Name).length : Int), st⟩ : Writer)).nb, (Writer.emitGlobal (⟨o, .BSD, false, wh, wst, hdr.Size + ((if hdr.Name.length % 2 = 1 then hdr.Name ++ [0] else hdr.Name).length : Int), st⟩ : Writer)).stringTable⟩ : Writer)
      (if hdr.Name.length % 2 = 1 then hdr.Name ++ [0] else hdr.Name)
      ((emitGlobal_closed _).trans rfl)
      (by simp only [emitGlobal_nb]; omega)]
    rw [@emitGlobal_of_wroteHeader (⟨(Writer.emitGlobal (⟨o, .BSD, false, wh, wst, hdr.Size + ((if hdr.Name.length % 2 = 1 then hdr.Name ++ [0] else hdr.Name).length : Int), st⟩ : Writer)).out ++ (Writer.stringField 16 ([35, 49, 47] ++ natRepr 10 (if hdr.Name.length % 2 = 1 then hdr.Name ++ [0] else hdr.Name).length) ++ headerTail hdr.ModTimeSec hdr.Uid hdr.Gid hdr.Mode (hdr.Size + ((if hdr.Name.length % 2 = 1 then hdr.Name ++ [0] else hdr.Name).length : Int))), (Writer.emitGlobal (⟨o, .BSD, false, wh, wst, hdr.Size + ((if hdr.Name.length % 2 = 1 then hdr.Name ++ [0] else hdr.Name).length : Int), st⟩ : Writer)).variant, (Writer.emitGlobal (⟨o, .BSD, false, wh, wst, hdr.Size + ((if hdr.Name.length % 2 = 1 then hdr.Name ++ [0] else hdr.Name).length : Int), st⟩ : Writer)).closed, (Writer.emitGlobal (⟨o, .BSD, false, wh, wst, hdr.Size + ((if hdr.Name.length % 2 = 1 then hdr.Name ++ [0] else hdr.Name).length : Int), st⟩ : Writer)).wroteHeader, (Writer.emitGlobal (⟨o, .BSD, false, wh, wst, hdr.Size + ((if hdr.Name.length % 2 = 1 then hdr.Name ++ [0] else hdr.Name).length : Int), st⟩ : Writer)).wroteStringTable, (Writer.emitGlobal (⟨o, .BSD, false, wh, wst, hdr.Size + ((if hdr.Name.length % 2 = 1 then hdr.Name ++ [0] else hdr.Name).length : Int), st⟩ : Writer)).nb, (Writer.emitGlobal (⟨o, .BSD, false, wh, wst, hdr.Size + ((if hdr.Name.length % 2 = 1 then hdr.Name ++ [0] else hdr.Name).length : Int), st⟩ : Writer)).stringTable⟩ : Writer)
      (emitGlobal_wroteHeader _)]
    dsimp only
    rw [if_neg heven, List.append_nil, emitGlobal_nb]
    dsimp only
    rw [add_sub_cancel_right]

/-- `Next` on a BSD member with a literal name field: the returned header
reports exactly the size written in the size field (no bounds on the other
numeric fields are needed, since their decode never fails). -/
theorem Next_BSD_size (rd : Reader) (name : List Nat)
    (mt uid gid mode size : Int) (tail : List Nat)
    (hrest : rd.rest =
      Writer.stringField 16 name ++ headerTail mt uid gid mode size ++ tail)
    (hv : rd.variant = .BSD) (hnb : rd.nb = 0) (hpad : rd.pad = 0)
    (htrim : arTrim (spacePad 16 name) = name)
    (hsym : name ≠ SYMDEF)
    (hslash : 47 ∉ name)
    (h10 : (intRepr 10 size).length ≤ 10) :
    (rd.Next.2).map Header.Size = .ok size := by
  have hA : (Writer.stringField 16 name).length = 16 := spacePad_length 16 name
  have hAB : (Writer.stringField 16 name ++
      headerTail mt uid gid mode size).length = 60 := by
    rw [List.length_append, hA, headerTail_length]
  have htake60 : rd.rest.take 60 =
      Writer.stringField 16 name ++ headerTail mt uid gid mode size := by
    rw [hrest, List.take_left' hAB]
  have hdrop60 : rd.rest.drop 60 = tail := by
    rw [hrest, List.drop_left' hAB]
  have hrlen : rd.rest.length = 60 + tail.length := by
    rw [hrest, List.length_append, hAB]
  have hdec : decodeHeader (rd.rest.take 60) =
      { Name := name
        ModTimeSec := readNumeric (Writer.numeric 12 mt)
        ModTimeNsec := 0
        Uid := readNumeric (Writer.numeric 6 uid)
        Gid := readNumeric (Writer.numeric 6 gid)
        Mode := readOctal (Writer.octal mode)
        Size := size } := by
    rw [htake60]
    have h := decodeHeader_block name mt uid gid mode size []
    rw [List.append_nil] at h
    rw [h, readNumeric_numeric h10, htrim]
  have hpre : name.take 3 ≠ [35, 49, 47] := by
    intro hcon
    have h47 : 47 ∈ name.take 3 := by rw [hcon]; simp
    exact hslash (List.take_subset _ _ h47)
  rw [Next_eq_body]
  simp only [Reader.nextBody, skipUnread_zero hnb hpad]
  rw [if_neg (by omega), if_neg (by omega), hdec, hdrop60]
  simp only [Reader.nextResolve, hv]
  dsimp only
  rw [if_neg (by simpa using hsym)]
  simp only [parseBSDFileName]
  rw [if_neg (by simpa using hpre)]
  dsimp only
  rw [if_neg (by simpa using hslash)]
  rfl

/-- `Next` on a BSD member whose 16-byte name field holds `#1/L`, followed by
the `L` real name bytes and then the payload: the read consumes the name
bytes, subtracts `L` from the decoded on-disk size, and the returned header
reports exactly the remaining (logical) size. -/
theorem Next_BSD_hash_size (rd : Reader) (name1 : List Nat)
    (mt uid gid mode size : Int) (tail : List Nat)
    (hrest : rd.rest =
      Writer.stringField 16 ([35, 49, 47] ++ natRepr 10 name1.length) ++
        headerTail mt uid gid mode (size + (name1.length : Int)) ++
        (name1 ++ tail))
    (hv : rd.variant = .BSD) (hnb : rd.nb = 0) (hpad : rd.pad = 0)
    (hname1 : name1 ≠ [])
    (hslash : 47 ∉ name1)
    (hdig : (natRepr 10 name1.length).length ≤ 13)
    (h10 : (intRepr 10 (size + (name1.length : Int))).length ≤ 10)
    (hs1 : 0 ≤ size) :
    (rd.Next.2).map Header.Size = .ok size := by
  have hfne : ([35, 49, 47] ++ natRepr 10 name1.length : List Nat) ≠ [] := by
    simp
  have hfsp : 32 ∉ ([35, 49, 47] ++ natRepr 10 name1.length : List Nat) := by
    intro hc
    rw [List.mem_append] at hc
    rcases hc with hc | hc
    · simp at hc
    · have := natRepr_mem (by omega) hc
      omega
  have hflen : ([35, 49, 47] ++ natRepr 10 name1.length : List Nat).length ≤ 16 := by
    rw [List.length_append]
    simp only [List.length_cons, List.length_nil]
    omega
  have htrimf : arTrim (spacePad 16 ([35, 49, 47] ++ natRepr 10 name1.length))
      = [35, 49, 47] ++ natRepr 10 name1.length :=
    arTrim_noSpace hfne hfsp hflen
  have hA : (Writer.stringField 16 ([35, 49, 47] ++
      natRepr 10 name1.length)).length = 16 := spacePad_length 16 _
  have hAB : (Writer.stringField 16 ([35, 49, 47] ++ natRepr 10 name1.length) ++
      headerTail mt uid gid mode (size + (name1.length : Int))).length = 60 := by
    rw [List.length_append, hA, headerTail_length]
  have htake60 : rd.rest.take 60 =
      Writer.stringField 16 ([35, 49, 47] ++ natRepr 10 name1.length) ++
        headerTail mt uid gid mode (size + (name1.length : Int)) := by
    rw [hrest, List.take_left' hAB]
  have hdrop60 : rd.rest.drop 60 = name1 ++ tail := by
    rw [hrest, List.drop_left' hAB]
  have hrlen : rd.rest.length = 60 + (name1 ++ tail).length := by
    rw [hrest, List.length_append, hAB]
  have hdec : decodeHeader (rd.rest.take 60) =
      { Name := [35, 49, 47] ++ natRepr 10 name1.length
        ModTimeSec := readNumeric (Writer.numeric 12 mt)
        ModTimeNsec := 0
        Uid := readNumeric (Writer.numeric 6 uid)
        Gid := readNumeric (Writer.numeric 6 gid)
        Mode := readOctal (Writer.octal mode)
        Size := size + (name1.length : Int) } := by
    rw [htake60]
    have h := decodeHeader_block ([35, 49, 47] ++ natRepr 10 name1.length)
      mt uid gid mode (size + (name1.length : Int)) []
    rw [List.append_nil] at h
    rw [h, readNumeric_numeric h10, htrimf]
  have hfsym : ([35, 49, 47] ++ natRepr 10 name1.length : List Nat) ≠ SYMDEF := by
    intro hcon
    have h2 := congrArg List.head? hcon
    simp [SYMDEF] at h2
  have htake3 : ([35, 49, 47] ++ natRepr 10 name1.length : List Nat).take 3
      = [35, 49, 47] :=
    List.take_left' rfl
  have hdrop3 : ([35, 49, 47] ++ natRepr 10 name1.length : List Nat).drop 3
      = natRepr 10 name1.length :=
    List.drop_left' rfl
  rw [Next_eq_body]
  simp only [Reader.nextBody, skipUnread_zero hnb hpad]
  rw [if_neg (by omega), if_neg (by omega), hdec, hdrop60]
  simp only [Reader.nextResolve, hv]
  dsimp only
  rw [if_neg (by simpa using hfsym)]
  simp only [parseBSDFileName]
  rw [if_pos htake3]
  rw [hdrop3, parseInt_natRepr (by omega)]
  dsimp only
  rw [if_neg (show ¬ ((name1.length : Int) < 0) by omega), Int.toNat_natCast]
  rw [Read_front
    (⟨name1 ++ tail, Variant.BSD, size + (name1.length : Int),
      if (size + (name1.length : Int)).tmod 2 = 1 then 1 else 0,
      rd.stringTable⟩ : Reader)
    name1 tail rfl hname1 (by dsimp only; omega)]
  dsimp only
  rw [Nat.sub_self]
  simp only [List.replicate_zero, List.append_nil]
  rw [if_neg (by exact trimTrailingNuls_not_mem hslash)]
  rw [add_sub_cancel_right]
  rfl

/-! Claim C5. -/

set_option maxRecDepth 8000 in
/-- C5, counterexample to the claim as stated: a size-2 member whose payload
is supplied in two one-byte `Write` calls occupies 64 bytes on disk (the
writer appends a `\n` pad byte after every odd-length `Write` call, not once
per member), so with the 8-byte magic the stream holds 72 bytes where the
claim promises `60 + size + size % 2 = 62` member bytes (70 in total). -/
theorem c5_padding_counterexample :
    (((((NewWriter .BSD).WriteHeader ⟨[97], 0, 0, 0, 0, 0, 2⟩).1.Write
        [97]).1.Write [98]).1.out.length = 72) ∧
    (72 : Nat) ≠ 8 + (60 + 2 + 2 % 2) := by
  refine ⟨by decide, by decide⟩

/-- C5 (amended): for every member whose name the writer and reader both
handle (nonempty, no slash, not `__.SYMDEF`; under GNU at most 15 bytes with
no space; under BSD either over 16 bytes — in which case the padded name
length is folded into the on-disk size and the name bytes are prepended to
the data — or space-free; and short enough for its length to fit the `#1/L`
field), whose declared size is nonnegative with the folded on-disk size
fitting the 10-byte size field, and whose payload is supplied in a single
`Write` call of exactly the declared size: the emitted stream holds exactly
the 8 magic bytes plus `60 + size + size % 2` member bytes — `size` being the
folded on-disk size — and reading the member back with `Reader.Next` reports
the original logical size in the returned Header. -/
theorem c5_padding_amended (v : Variant) (hdr : Header) (payload : List Nat)
    (hne : hdr.Name ≠ [])
    (hslash : 47 ∉ hdr.Name)
    (hsym : hdr.Name ≠ SYMDEF)
    (hGNU : v = .GNU → hdr.Name.length ≤ 15 ∧ 32 ∉ hdr.Name)
    (hBSD : v = .BSD → 16 < hdr.Name.length ∨ 32 ∉ hdr.Name)
    (hnw : hdr.Name.length + 1 < 10 ^ 13)
    (hs1 : 0 ≤ hdr.Size)
    (hs2 : hdr.Size + (if v = .BSD ∧ 16 < hdr.Name.length then ((if hdr.Name.length % 2 = 1 then hdr.Name ++ [0] else hdr.Name).length : Int) else 0) < 10000000000)
    (hp : payload.length = hdr.Size.toNat) :
    ((((NewWriter v).WriteHeader hdr).1.Write payload).1.out.length
        = 8 + (60 + (hdr.Size + (if v = .BSD ∧ 16 < hdr.Name.length then ((if hdr.Name.length % 2 = 1 then hdr.Name ++ [0] else hdr.Name).length : Int) else 0)).toNat
          + (hdr.Size + (if v = .BSD ∧ 16 < hdr.Name.length then ((if hdr.Name.length % 2 = 1 then hdr.Name ++ [0] else hdr.Name).length : Int) else 0)).toNat % 2)) ∧
    ∃ rd : Reader,
      NewReader ((((NewWriter v).WriteHeader hdr).1.Write payload).1.out)
        = .ok rd ∧
      (rd.Next.2).map Header.Size = .ok hdr.Size := by
  have hszcast : hdr.Size = (payload.length : Int) := by
    rw [hp]
    exact (Int.toNat_of_nonneg hs1).symm
  by_cases hcase : v = .BSD ∧ 16 < hdr.Name.length
  · obtain ⟨hv, hlong⟩ := hcase
    subst hv
    rw [if_pos (show Variant.BSD = Variant.BSD ∧ 16 < hdr.Name.length
      from ⟨rfl, hlong⟩)] at hs2 ⊢
    have heven : ¬ (if hdr.Name.length % 2 = 1 then hdr.Name ++ [0] else hdr.Name).length % 2 = 1 := by
      split
      · simp
        omega
      · omega
    have hlenN : (if hdr.Name.length % 2 = 1 then hdr.Name ++ [0] else hdr.Name).length ≤ hdr.Name.length + 1 := by
      split
      · simp
      · omega
    have hne1 : (if hdr.Name.length % 2 = 1 then hdr.Name ++ [0] else hdr.Name) ≠ [] := by
      split
      · simp
      · exact hne
    have hslash1 : 47 ∉ (if hdr.Name.length % 2 = 1 then hdr.Name ++ [0] else hdr.Name) := by
      split
      · intro hc
        rcases List.mem_append.mp hc with hc | hc
        · exact hslash hc
        · simp at hc
      · exact hslash
    have hdig : (natRepr 10 (if hdr.Name.length % 2 = 1 then hdr.Name ++ [0] else hdr.Name).length).length ≤ 13 :=
      natRepr_length_le (by omega) (by omega) (by omega)
    have h10 : (intRepr 10 (hdr.Size + ((if hdr.Name.length % 2 = 1 then hdr.Name ++ [0] else hdr.Name).length : Int))).length ≤ 10 := by
      apply intRepr_length_le_ten (by omega)
      · norm_num
        omega
      · norm_num
        omega
    have hWH := WriteHeader_BSD_long (NewWriter .BSD) hdr rfl rfl hlong hs1
    have hw1 : Writer.emitGlobal { NewWriter .BSD with
        nb := hdr.Size + ((if hdr.Name.length % 2 = 1 then hdr.Name ++ [0] else hdr.Name).length : Int) } =
        (⟨GLOBAL_HEADER, .BSD, false, true, false,
          hdr.Size + ((if hdr.Name.length % 2 = 1 then hdr.Name ++ [0] else hdr.Name).length : Int), []⟩ : Writer) := by
      simp [NewWriter, Writer.emitGlobal]
    rw [hw1] at hWH
    have hWr := Write_exact
      (⟨(GLOBAL_HEADER ++ (Writer.stringField 16 ([35, 49, 47] ++ natRepr 10 (if hdr.Name.length % 2 = 1 then hdr.Name ++ [0] else hdr.Name).length) ++ headerTail (if hdr.ModTimeSec < 0 then 0 else hdr.ModTimeSec) hdr.Uid hdr.Gid hdr.Mode (hdr.Size + ((if hdr.Name.length % 2 = 1 then hdr.Name ++ [0] else hdr.Name).length : Int)))) ++ (if hdr.Name.length % 2 = 1 then hdr.Name ++ [0] else hdr.Name),
        .BSD, false, true, false, hdr.Size, []⟩ : Writer) payload rfl hszcast
    rw [emitGlobal_of_wroteHeader rfl] at hWr
    have hfsp : 32 ∉ (([35, 49, 47] ++ natRepr 10 (if hdr.Name.length % 2 = 1 then hdr.Name ++ [0] else hdr.Name).length) : List Nat) := by
      intro hc
      rw [List.mem_append] at hc
      rcases hc with hc | hc
      · simp at hc
      · have := natRepr_mem (by omega) hc
        omega
    have htrimSF : arTrim (Writer.stringField 16 ([35, 49, 47] ++ natRepr 10 (if hdr.Name.length % 2 = 1 then hdr.Name ++ [0] else hdr.Name).length)) = ([35, 49, 47] ++ natRepr 10 (if hdr.Name.length % 2 = 1 then hdr.Name ++ [0] else hdr.Name).length) :=
      arTrim_noSpace (by simp) hfsp (by
        rw [List.length_append]
        simp only [List.length_cons, List.length_nil]
        omega)
    have hA : (Writer.stringField 16 ([35, 49, 47] ++ natRepr 10 (if hdr.Name.length % 2 = 1 then hdr.Name ++ [0] else hdr.Name).length) : List Nat).length = 16 := spacePad_length 16 _
    constructor
    · rw [hWH]
      dsimp only
      rw [hWr]
      dsimp only
      by_cases hodd : payload.length % 2 = 1
      · rw [if_pos hodd]
        simp [List.length_append, Writer.stringField, spacePad_length,
          headerTail_length, GLOBAL_HEADER]
        omega
      · rw [if_neg hodd]
        simp [List.length_append, Writer.stringField, spacePad_length,
          headerTail_length, GLOBAL_HEADER]
        omega
    · rw [hWH]
      dsimp only
      rw [hWr]
      dsimp only
      have hout : (((GLOBAL_HEADER ++ (Writer.stringField 16 ([35, 49, 47] ++ natRepr 10 (if hdr.Name.length % 2 = 1 then hdr.Name ++ [0] else hdr.Name).length) ++ headerTail (if hdr.ModTimeSec < 0 then 0 else hdr.ModTimeSec) hdr.Uid hdr.Gid hdr.Mode (hdr.Size + ((if hdr.Name.length % 2 = 1 then hdr.Name ++ [0] else hdr.Name).length : Int)))) ++ (if hdr.Name.length % 2 = 1 then hdr.Name ++ [0] else hdr.Name)) ++ payload)
            ++ (if payload.length % 2 = 1 then [10] else []) =
          GLOBAL_HEADER ++ (Writer.stringField 16 ([35, 49, 47] ++ natRepr 10 (if hdr.Name.length % 2 = 1 then hdr.Name ++ [0] else hdr.Name).length) ++
            (headerTail (if hdr.ModTimeSec < 0 then 0 else hdr.ModTimeSec) hdr.Uid hdr.Gid hdr.Mode (hdr.Size + ((if hdr.Name.length % 2 = 1 then hdr.Name ++ [0] else hdr.Name).length : Int)) ++ ((if hdr.Name.length % 2 = 1 then hdr.Name ++ [0] else hdr.Name) ++ (payload ++ (if payload.length % 2 = 1 then [10] else []))))) := by
        simp [List.append_assoc]
      have htake16 : (Writer.stringField 16 ([35, 49, 47] ++ natRepr 10 (if hdr.Name.length % 2 = 1 then hdr.Name ++ [0] else hdr.Name).length) ++
          (headerTail (if hdr.ModTimeSec < 0 then 0 else hdr.ModTimeSec) hdr.Uid hdr.Gid hdr.Mode (hdr.Size + ((if hdr.Name.length % 2 = 1 then hdr.Name ++ [0] else hdr.Name).length : Int)) ++ ((if hdr.Name.length % 2 = 1 then hdr.Name ++ [0] else hdr.Name) ++ (payload ++ (if payload.length % 2 = 1 then [10] else []))))).take 16 = Writer.stringField 16 ([35, 49, 47] ++ natRepr 10 (if hdr.Name.length % 2 = 1 then hdr.Name ++ [0] else hdr.Name).length) :=
        List.take_left' hA
      have hvar : ¬ (16 ≤ (Writer.stringField 16 ([35, 49, 47] ++ natRepr 10 (if hdr.Name.length % 2 = 1 then hdr.Name ++ [0] else hdr.Name).length) ++
          (headerTail (if hdr.ModTimeSec < 0 then 0 else hdr.ModTimeSec) hdr.Uid hdr.Gid hdr.Mode (hdr.Size + ((if hdr.Name.length % 2 = 1 then hdr.Name ++ [0] else hdr.Name).length : Int)) ++ ((if hdr.Name.length % 2 = 1 then hdr.Name ++ [0] else hdr.Name) ++ (payload ++ (if payload.length % 2 = 1 then [10] else []))))).length ∧
          ((([35, 49, 47] ++ natRepr 10 (if hdr.Name.length % 2 = 1 then hdr.Name ++ [0] else hdr.Name).length) : List Nat).head? = some 47 ∨
            (([35, 49, 47] ++ natRepr 10 (if hdr.Name.length % 2 = 1 then hdr.Name ++ [0] else hdr.Name).length) : List Nat).getLast? = some 47)) := by
        rintro ⟨h1, h2 | h2⟩
        · simp at h2
        · rw [List.getLast?_append_of_ne_nil _ (natRepr_ne_nil _ _)] at h2
          have h3 := @natRepr_mem 10 _ _ (by omega)
            (List.mem_of_mem_getLast? h2)
          omega
      rw [hout, NewReader_magic, htake16, htrimSF, if_neg hvar]
      refine ⟨_, rfl, ?_⟩
      rw [show hdr.Size = hdr.Size + ((if hdr.Name.length % 2 = 1 then hdr.Name ++ [0] else hdr.Name).length : Int) - ((if hdr.Name.length % 2 = 1 then hdr.Name ++ [0] else hdr.Name).length : Int)
        from by ring]
      exact Next_BSD_hash_size _ (if hdr.Name.length % 2 = 1 then hdr.Name ++ [0] else hdr.Name) (if hdr.ModTimeSec < 0 then 0 else hdr.ModTimeSec) hdr.Uid hdr.Gid hdr.Mode
        (hdr.Size + ((if hdr.Name.length % 2 = 1 then hdr.Name ++ [0] else hdr.Name).length : Int) - ((if hdr.Name.length % 2 = 1 then hdr.Name ++ [0] else hdr.Name).length : Int))
        (payload ++ (if payload.length % 2 = 1 then [10] else []))
        (by rw [List.append_assoc])
        rfl rfl rfl hne1 hslash1 hdig (by rw [sub_add_cancel]; exact h10)
        (by omega)
  · rw [if_neg hcase] at hs2 ⊢
    rw [add_zero] at hs2 ⊢
    have hspace : 32 ∉ hdr.Name := by
      cases v with
      | GNU => exact (hGNU rfl).2
      | BSD =>
        rcases hBSD rfl with h | h
        · exact absurd ⟨rfl, h⟩ hcase
        · exact h
    have hlen16 : hdr.Name.length ≤ 16 := by
      cases v with
      | GNU =>
        have := (hGNU rfl).1
        omega
      | BSD =>
        by_contra hcon
        exact hcase ⟨rfl, by omega⟩
    have h10 : (intRepr 10 hdr.Size).length ≤ 10 := by
      apply intRepr_length_le_ten (by omega)
      · norm_num
        omega
      · norm_num
        omega
    have htrim : arTrim (spacePad 16 hdr.Name) = hdr.Name :=
      arTrim_noSpace hne hspace hlen16
    have hWH := WriteHeader_literal_clamp (NewWriter v) hdr rfl hne
      (fun hv => (hGNU hv).1) (fun hv => ⟨hlen16, hspace⟩)
    have hw1 : Writer.emitGlobal { NewWriter v with nb := hdr.Size } =
        (⟨GLOBAL_HEADER, v, false, true, false, hdr.Size, []⟩ : Writer) := by
      simp [NewWriter, Writer.emitGlobal]
    rw [hw1] at hWH
    have hWr := Write_exact
      (⟨GLOBAL_HEADER ++ (Writer.stringField 16 hdr.Name ++ headerTail (if hdr.ModTimeSec < 0 then 0 else hdr.ModTimeSec) hdr.Uid hdr.Gid hdr.Mode hdr.Size),
        v, false, true, false, hdr.Size, []⟩ : Writer) payload rfl hszcast
    rw [emitGlobal_of_wroteHeader rfl] at hWr
    have hA : (Writer.stringField 16 hdr.Name : List Nat).length = 16 := spacePad_length 16 _
    constructor
    · rw [hWH]
      dsimp only
      rw [hWr]
      dsimp only
      by_cases hodd : payload.length % 2 = 1
      · rw [if_pos hodd]
        simp [List.length_append, Writer.stringField, spacePad_length,
          headerTail_length, GLOBAL_HEADER]
        omega
      · rw [if_neg hodd]
        simp [List.length_append, Writer.stringField, spacePad_length,
          headerTail_length, GLOBAL_HEADER]
        omega
    · rw [hWH]
      dsimp only
      rw [hWr]
      dsimp only
      have hout : ((GLOBAL_HEADER ++ (Writer.stringField 16 hdr.Name ++ headerTail (if hdr.ModTimeSec < 0 then 0 else hdr.ModTimeSec) hdr.Uid hdr.Gid hdr.Mode hdr.Size)) ++ payload)
            ++ (if payload.length % 2 = 1 then [10] else []) =
          GLOBAL_HEADER ++ (Writer.stringField 16 hdr.Name ++
            (headerTail (if hdr.ModTimeSec < 0 then 0 else hdr.ModTimeSec) hdr.Uid hdr.Gid hdr.Mode hdr.Size ++ (payload ++ (if payload.length % 2 = 1 then [10] else [])))) := by
        simp [List.append_assoc]
      have htake16 : (Writer.stringField 16 hdr.Name ++
          (headerTail (if hdr.ModTimeSec < 0 then 0 else hdr.ModTimeSec) hdr.Uid hdr.Gid hdr.Mode hdr.Size ++ (payload ++ (if payload.length % 2 = 1 then [10] else [])))).take 16 = Writer.stringField 16 hdr.Name :=
        List.take_left' hA
      have hvar : ¬ (16 ≤ (Writer.stringField 16 hdr.Name ++
          (headerTail (if hdr.ModTimeSec < 0 then 0 else hdr.ModTimeSec) hdr.Uid hdr.Gid hdr.Mode hdr.Size ++ (payload ++ (if payload.length % 2 = 1 then [10] else [])))).length ∧
          (hdr.Name.head? = some 47 ∨ hdr.Name.getLast? = some 47)) := by
        rintro ⟨h1, h2 | h2⟩
        · exact hslash (List.mem_of_mem_head? (by rw [h2]; simp))
        · exact hslash (List.mem_of_mem_getLast? (by rw [h2]; simp))
      rw [hout, NewReader_magic, htake16,
        show arTrim (Writer.stringField 16 hdr.Name) = hdr.Name from htrim, if_neg hvar]
      refine ⟨_, rfl, ?_⟩
      exact Next_BSD_size _ hdr.Name (if hdr.ModTimeSec < 0 then 0 else hdr.ModTimeSec) hdr.Uid hdr.Gid hdr.Mode
        hdr.Size (payload ++ (if payload.length % 2 = 1 then [10] else []))
        (by rw [List.append_assoc]) rfl rfl rfl htrim hsym hslash h10

set_option maxRecDepth 8000 in
/-- C5 witness: the amended theorem at two concrete BSD members — a size-2
member named `a` (payload `ab` in one call: 70 bytes on disk, size 2 read
back) and a size-1 member with the 17-byte name `abcdefghijklmnopq` (the
padded 18 name bytes are folded in and prepended: 88 bytes on disk, size 1
read back). -/
theorem c5_padding_witness :
    ((((NewWriter .BSD).WriteHeader
        ⟨[97], 0, 0, 0, 0, 0, 2⟩).1.Write [97, 98]).1.out.length = 70) ∧
    (∃ rd : Reader,
      NewReader ((((NewWriter .BSD).WriteHeader
          ⟨[97], 0, 0, 0, 0, 0, 2⟩).1.Write [97, 98]).1.out) = .ok rd ∧
      (rd.Next.2).map Header.Size = .ok 2) ∧
    ((((NewWriter .BSD).WriteHeader
        ⟨[97, 98, 99, 100, 101, 102, 103, 104, 105, 106, 107, 108, 109, 110,
          111, 112, 113], 0, 0, 0, 0, 0, 1⟩).1.Write [120]).1.out.length = 88) ∧
    (∃ rd : Reader,
      NewReader ((((NewWriter .BSD).WriteHeader
          ⟨[97, 98, 99, 100, 101, 102, 103, 104, 105, 106, 107, 108, 109, 110,
            111, 112, 113], 0, 0, 0, 0, 0, 1⟩).1.Write [120]).1.out) = .ok rd ∧
      (rd.Next.2).map Header.Size = .ok 1) :=
  ⟨((c5_padding_amended .BSD ⟨[97], 0, 0, 0, 0, 0, 2⟩ [97, 98]
      (by decide) (by decide) (by decide)
      (fun h => absurd h (by decide)) (fun h => Or.inr (by decide))
      (by norm_num) (by decide) (by decide) (by decide)).1).trans (by decide),
    (c5_padding_amended .BSD ⟨[97], 0, 0, 0, 0, 0, 2⟩ [97, 98]
      (by decide) (by decide) (by decide)
      (fun h => absurd h (by decide)) (fun h => Or.inr (by decide))
      (by norm_num) (by decide) (by decide) (by decide)).2,
    ((c5_padding_amended .BSD
      ⟨[97, 98, 99, 100, 101, 102, 103, 104, 105, 106, 107, 108, 109, 110,
        111, 112, 113], 0, 0, 0, 0, 0, 1⟩ [120]
      (by decide) (by decide) (by decide)
      (fun h => absurd h (by decide)) (fun h => Or.inl (by decide))
      (by norm_num) (by decide) (by decide) (by decide)).1).trans (by decide),
    (c5_padding_amended .BSD
      ⟨[97, 98, 99, 100, 101, 102, 103, 104, 105, 106, 107, 108, 109, 110,
        111, 112, 113], 0, 0, 0, 0, 0, 1⟩ [120]
      (by decide) (by decide) (by decide)
      (fun h => absurd h (by decide)) (fun h => Or.inl (by decide))
      (by norm_num) (by decide) (by decide) (by decide)).2⟩

/-! Claim C8. -/

set_option maxRecDepth 8000 in
/-- C8, counterexample to the claim as stated: a GNU archive whose string
table declares size 0 is not skipped transparently with an empty table
cached; `Read` reports `io.EOF` for the zero-byte read (its `nb = 0` branch)
and `Next` fails with an `ErrStringTable` wrapping `io.EOF`, where the claim
requires `Next` to continue to the following member (here: a clean `io.EOF`
end-of-archive). -/
theorem c8_stringTable_counterexample :
    NewReader (GLOBAL_HEADER ++ c8block0) =
      .ok ⟨c8block0, .GNU, 0, 0, none⟩ ∧
    (Reader.Next ⟨c8block0, .GNU, 0, 0, none⟩).2 = .error .stringTableReadEOF ∧
    (Except.error .stringTableReadEOF : Except ArErr Header) ≠ .error .eof := by
  refine ⟨rfl, rfl, fun h => ArErr.noConfusion (Except.error.inj h)⟩

/-- C8 (amended): for a GNU reader positioned at a member whose decoded name
is `//` (no pending payload to skip), (a) if a string table is already
cached, `Next` fails with the multiple-string-tables `ErrStringTable` error;
(b) if none is cached and the declared size `s` satisfies `1 ≤ s` with `s`
payload bytes available, the `s` payload bytes are cached as the string table
and `Next` continues transparently at the following member (with the table
member's pad byte still pending). -/
theorem c8_stringTable_amended (rd : Reader)
    (hv : rd.variant = .GNU) (hnb : rd.nb = 0) (hpad : rd.pad = 0)
    (hlen : 60 ≤ rd.rest.length)
    (hname : (decodeHeader (rd.rest.take 60)).Name = [47, 47]) :
    (∀ t, rd.stringTable = some t →
      (rd.Next).2 = .error .stringTableMultiple) ∧
    (rd.stringTable = none →
      1 ≤ (decodeHeader (rd.rest.take 60)).Size →
      60 + (decodeHeader (rd.rest.take 60)).Size.toNat ≤ rd.rest.length →
      rd.Next = Reader.Next
        ⟨(rd.rest.drop 60).drop (decodeHeader (rd.rest.take 60)).Size.toNat,
          .GNU, 0,
          if (decodeHeader (rd.rest.take 60)).Size.tmod 2 = 1 then 1 else 0,
          some ((rd.rest.drop 60).take
            (decodeHeader (rd.rest.take 60)).Size.toNat)⟩) := by
  obtain ⟨rest, v, nb, pad, st⟩ := rd
  simp only at hv hnb hpad hlen hname ⊢
  subst hv hnb hpad
  constructor
  · intro t ht
    subst ht
    rw [Next_eq_body]
    simp only [Reader.nextBody,
      @skipUnread_zero ⟨rest, Variant.GNU, 0, 0, some t⟩ rfl rfl]
    rw [if_neg (show ¬ rest.length = 0 by omega),
      if_neg (show ¬ rest.length < 60 by omega)]
    simp only [Reader.nextResolve, hname]
    rw [if_neg (show ¬ ([47, 47] : List Nat) = [47] by decide), if_pos trivial,
      if_pos (show Option.isSome (some t) = true from rfl)]
  · intro ht h1 h2
    subst ht
    have hp : ((rest.drop 60).take (decodeHeader (rest.take 60)).Size.toNat).length
        = (decodeHeader (rest.take 60)).Size.toNat := by
      simp only [List.length_take, List.length_drop]
      omega
    rw [Next_eq_body]
    simp only [Reader.nextBody,
      @skipUnread_zero ⟨rest, Variant.GNU, 0, 0, none⟩ rfl rfl]
    rw [if_neg (show ¬ rest.length = 0 by omega),
      if_neg (show ¬ rest.length < 60 by omega)]
    simp only [Reader.nextResolve, hname]
    rw [if_neg (show ¬ Option.isSome (none : Option (List Nat)) = true by decide),
      if_neg (show ¬ (decodeHeader (rest.take 60)).Size < 0 by omega)]
    have h0 := Read_all
      (⟨rest.drop 60, Variant.GNU, (decodeHeader (rest.take 60)).Size,
        if (decodeHeader (rest.take 60)).Size.tmod 2 = 1 then 1 else 0,
        none⟩ : Reader)
      ((rest.drop 60).take (decodeHeader (rest.take 60)).Size.toNat)
      ((rest.drop 60).drop (decodeHeader (rest.take 60)).Size.toNat)
      (List.take_append_drop _ _).symm
      (by dsimp only; rw [hp]; omega)
    rw [hp] at h0
    rw [if_neg (show ¬ (rest.drop 60).take (decodeHeader (rest.take 60)).Size.toNat
        = [] from fun hemp => by rw [hemp] at hp; simp at hp; omega)] at h0
    rw [h0]
    dsimp only
    rw [hp]
    simp only [Nat.sub_self, List.replicate_zero, List.append_nil]
    rw [if_neg (show ¬ ([47, 47] : List Nat) = [47] by decide), if_pos trivial]

/-- C8 witness: the amended theorem at two concrete readers positioned at a
size-1 string-table member followed by its one payload byte: with no cached
table, `Next` recurses on the reader holding the cached table; with a cached
table, `Next` fails with the multiple-string-tables error. -/
theorem c8_stringTable_witness :
    ((⟨c8block1 ++ [10], .GNU, 0, 0, none⟩ : Reader).Next =
      Reader.Next
        ⟨((c8block1 ++ [10]).drop 60).drop
            (decodeHeader ((c8block1 ++ [10]).take 60)).Size.toNat,
          .GNU, 0,
          if (decodeHeader ((c8block1 ++ [10]).take 60)).Size.tmod 2 = 1
            then 1 else 0,
          some (((c8block1 ++ [10]).drop 60).take
            (decodeHeader ((c8block1 ++ [10]).take 60)).Size.toNat)⟩) ∧
    ((⟨c8block1 ++ [10], .GNU, 0, 0, some []⟩ : Reader).Next).2 =
      .error .stringTableMultiple :=
  ⟨(c8_stringTable_amended ⟨c8block1 ++ [10], .GNU, 0, 0, none⟩ rfl rfl rfl
      (by decide) (by decide)).2 rfl (by decide) (by decide),
    (c8_stringTable_amended ⟨c8block1 ++ [10], .GNU, 0, 0, some []⟩ rfl rfl rfl
      (by decide) (by decide)).1 [] rfl⟩

/-! Claim C10. -/

theorem finishHeader_hdr (aw1 : Writer) (hdr2 : Header) (block : List Nat) :
    (Writer.finishHeader aw1 hdr2 block).2.1 = hdr2 := by
  unfold Writer.finishHeader
  split
  · rfl
  · split
    · split
      rfl
    · rfl

/-- C10, counterexample to the claim as stated: a call with the empty name
and a pre-epoch ModTime returns the empty-file-name error before the clamping
step, so the caller's ModTime is NOT overwritten with the epoch even though
the claim quantifies over every call with a pre-epoch ModTime. -/
theorem c10_headerMutation_counterexample :
    ((NewWriter .BSD).WriteHeader ⟨[], -1, 0, 0, 0, 0, 0⟩).2.2
      = some .emptyFileName ∧
    ((NewWriter .BSD).WriteHeader ⟨[], -1, 0, 0, 0, 0, 0⟩).2.1.ModTimeSec = -1 ∧
    (-1 : Int) ≠ 0 := by
  refine ⟨rfl, rfl, by decide⟩

/-- C10 (amended): for every `WriteHeader` call that does not fail before the
encoding step (the name is nonempty, and under GNU a name longer than 15
bytes is registered in a written string table), the caller's Header is
mutated exactly as follows: under BSD with a name longer than 16 bytes or
containing a space, Name gains a trailing NUL when its length was odd and
Size grows by the padded name length; a pre-epoch ModTime is overwritten with
the epoch; Uid, Gid and Mode are never modified. -/
theorem c10_headerMutation_amended (aw : Writer) (hdr : Header)
    (hne : hdr.Name ≠ [])
    (hGNUreg : aw.variant = .GNU → 15 < hdr.Name.length →
      aw.wroteStringTable = true ∧ (aw.stringTable.lookup hdr.Name).isSome = true) :
    ((aw.WriteHeader hdr).2.1.Uid = hdr.Uid ∧
      (aw.WriteHeader hdr).2.1.Gid = hdr.Gid ∧
      (aw.WriteHeader hdr).2.1.Mode = hdr.Mode) ∧
    (aw.WriteHeader hdr).2.1.Name =
      (if aw.variant = .BSD ∧ (16 < hdr.Name.length ∨ 32 ∈ hdr.Name) ∧
          hdr.Name.length % 2 = 1
        then hdr.Name ++ [0] else hdr.Name) ∧
    (aw.WriteHeader hdr).2.1.Size =
      (if aw.variant = .BSD ∧ (16 < hdr.Name.length ∨ 32 ∈ hdr.Name)
        then hdr.Size + (if hdr.Name.length % 2 = 1
          then (hdr.Name.length : Int) + 1 else (hdr.Name.length : Int))
        else hdr.Size) ∧
    (aw.WriteHeader hdr).2.1.ModTimeSec =
      (if hdr.ModTimeSec < 0 then 0 else hdr.ModTimeSec) ∧
    (aw.WriteHeader hdr).2.1.ModTimeNsec =
      (if hdr.ModTimeSec < 0 then 0 else hdr.ModTimeNsec) := by
  have hnel : ¬ hdr.Name.length = 0 := by
    simpa [List.length_eq_zero] using hne
  obtain ⟨o, v, c, wh, wst, nb0, st⟩ := aw
  simp only at hGNUreg
  unfold Writer.WriteHeader
  rw [if_neg hnel]
  cases v with
  | GNU =>
    dsimp only
    by_cases hl : 15 < hdr.Name.length
    · obtain ⟨hwst, hlook⟩ := hGNUreg rfl hl
      obtain ⟨off, hoff⟩ := Option.isSome_iff_exists.mp hlook
      subst hwst
      rw [if_pos hl, if_neg (show ¬¬(true = true) from fun h => h rfl), hoff]
      dsimp only
      simp only [if_neg (show ¬(Variant.GNU = Variant.BSD ∧
            (16 < hdr.Name.length ∨ 32 ∈ hdr.Name))
          from fun h => Variant.noConfusion h.1),
        if_neg (show ¬(Variant.GNU = Variant.BSD ∧
            (16 < hdr.Name.length ∨ 32 ∈ hdr.Name) ∧ hdr.Name.length % 2 = 1)
          from fun h => Variant.noConfusion h.1)]
      by_cases hmt : hdr.ModTimeSec < 0
      · simp only [if_pos hmt, finishHeader_hdr]
        refine ⟨⟨?_, ?_, ?_⟩, ?_, ?_, ?_, ?_⟩ <;>
          first
          | trivial
          | (push_cast [List.length_append, List.length_singleton]; ring)
      · simp only [if_neg hmt, finishHeader_hdr]
        refine ⟨⟨?_, ?_, ?_⟩, ?_, ?_, ?_, ?_⟩ <;>
          first
          | trivial
          | (push_cast [List.length_append, List.length_singleton]; ring)
    · rw [if_neg hl]
      dsimp only
      simp only [if_neg (show ¬(Variant.GNU = Variant.BSD ∧
            (16 < hdr.Name.length ∨ 32 ∈ hdr.Name))
          from fun h => Variant.noConfusion h.1),
        if_neg (show ¬(Variant.GNU = Variant.BSD ∧
            (16 < hdr.Name.length ∨ 32 ∈ hdr.Name) ∧ hdr.Name.length % 2 = 1)
          from fun h => Variant.noConfusion h.1)]
      by_cases hmt : hdr.ModTimeSec < 0
      · simp only [if_pos hmt, finishHeader_hdr]
        refine ⟨⟨?_, ?_, ?_⟩, ?_, ?_, ?_, ?_⟩ <;>
          first
          | trivial
          | (push_cast [List.length_append, List.length_singleton]; ring)
      · simp only [if_neg hmt, finishHeader_hdr]
        refine ⟨⟨?_, ?_, ?_⟩, ?_, ?_, ?_, ?_⟩ <;>
          first
          | trivial
          | (push_cast [List.length_append, List.length_singleton]; ring)
  | BSD =>
    dsimp only
    by_cases hlong : 16 < hdr.Name.length ∨ 32 ∈ hdr.Name
    · rw [if_pos hlong]
      dsimp only
      by_cases hodd : hdr.Name.length % 2 = 1
      · simp only [true_and, if_pos hodd,
          if_pos (show (16 < hdr.Name.length ∨ 32 ∈ hdr.Name) ∧
              hdr.Name.length % 2 = 1 from ⟨hlong, hodd⟩),
          if_pos hlong]
        by_cases hmt : hdr.ModTimeSec < 0
        · simp only [if_pos hmt, finishHeader_hdr]
          refine ⟨⟨?_, ?_, ?_⟩, ?_, ?_, ?_, ?_⟩ <;>
          first
          | trivial
          | (push_cast [List.length_append, List.length_singleton]; ring)
        · simp only [if_neg hmt, finishHeader_hdr]
          refine ⟨⟨?_, ?_, ?_⟩, ?_, ?_, ?_, ?_⟩ <;>
          first
          | trivial
          | (push_cast [List.length_append, List.length_singleton]; ring)
      · simp only [true_and, if_neg hodd,
          if_neg (show ¬((16 < hdr.Name.length ∨ 32 ∈ hdr.Name) ∧
              hdr.Name.length % 2 = 1) from fun h => hodd h.2),
          if_pos hlong]
        by_cases hmt : hdr.ModTimeSec < 0
        · simp only [if_pos hmt, finishHeader_hdr]
          refine ⟨⟨?_, ?_, ?_⟩, ?_, ?_, ?_, ?_⟩ <;>
          first
          | trivial
          | (push_cast [List.length_append, List.length_singleton]; ring)
        · simp only [if_neg hmt, finishHeader_hdr]
          refine ⟨⟨?_, ?_, ?_⟩, ?_, ?_, ?_, ?_⟩ <;>
          first
          | trivial
          | (push_cast [List.length_append, List.length_singleton]; ring)
    · rw [if_neg hlong]
      dsimp only
      simp only [true_and, if_neg hlong,
        if_neg (show ¬((16 < hdr.Name.length ∨ 32 ∈ hdr.Name) ∧
            hdr.Name.length % 2 = 1) from fun h => hlong h.1)]
      by_cases hmt : hdr.ModTimeSec < 0
      · simp only [if_pos hmt, finishHeader_hdr]
        refine ⟨⟨?_, ?_, ?_⟩, ?_, ?_, ?_, ?_⟩ <;>
          first
          | trivial
          | (push_cast [List.length_append, List.length_singleton]; ring)
      · simp only [if_neg hmt, finishHeader_hdr]
        refine ⟨⟨?_, ?_, ?_⟩, ?_, ?_, ?_, ?_⟩ <;>
          first
          | trivial
          | (push_cast [List.length_append, List.length_singleton]; ring)

/-- C10 witness: the amended mutation statement at a BSD writer and a Header
with the 3-byte spacey name `a b`, size 1 and ModTime -7: the returned header
has Name `a b` plus a NUL, Size 5 and ModTime clamped to the epoch. -/
theorem c10_headerMutation_witness :
    (([97, 32, 98] : List Nat) ≠ [] ∧ (32 : Nat) ∈ [97, 32, 98]) ∧
    (((NewWriter .BSD).WriteHeader ⟨[97, 32, 98], -7, 5, 0, 0, 0, 1⟩).2.1.Name =
      (if (NewWriter .BSD).variant = .BSD ∧
          (16 < ([97, 32, 98] : List Nat).length ∨ (32 : Nat) ∈ [97, 32, 98]) ∧
          ([97, 32, 98] : List Nat).length % 2 = 1
        then [97, 32, 98] ++ [0] else [97, 32, 98]) ∧
      ((NewWriter .BSD).WriteHeader ⟨[97, 32, 98], -7, 5, 0, 0, 0, 1⟩).2.1.ModTimeSec =
        (if (-7 : Int) < 0 then 0 else (-7 : Int))) :=
  ⟨⟨by decide, by decide⟩,
    ⟨(c10_headerMutation_amended (NewWriter .BSD) ⟨[97, 32, 98], -7, 5, 0, 0, 0, 1⟩
        (by decide) (fun h => absurd h (by decide))).2.1,
      (c10_headerMutation_amended (NewWriter .BSD) ⟨[97, 32, 98], -7, 5, 0, 0, 0, 1⟩
        (by decide) (fun h => absurd h (by decide))).2.2.2.1⟩⟩

end Ar
